import Mathlib

/-!
Unsung-Browser proxy core (`WebServer/main.cpp`).

A shallow embedding of the proxy core of `WebServer/main.cpp` and theorems about it.

* A `std::string` is a list of bytes (`Str = List Byte`, `Byte = Fin 256`).
* `int` / `unsigned char` arithmetic is done on `Int` / `Nat`; the one place where a
  machine integer can overflow (`val << 6` in `Base64::decode`) wraps explicitly
  modulo `2^32`.
* Calls that can throw (`std::string::replace`, `std::string::insert`) or not return
  (`std::regex_search` beyond the capacity of the engine) return `Option`.
* The steady clock, the outbound fetch, the content of an uninitialised local and
  the capacity of the regex engine are inputs of the embedded functions.
-/

set_option maxRecDepth 100000

/-! ## Bytes and strings -/

/-- One `char` of a `std::string`, as its unsigned value. -/
abbrev Byte := Fin 256

/-- A `std::string`: a finite sequence of bytes. -/
abbrev Str := List Byte

/-- The byte of an ASCII character literal. -/
def ch (c : Char) : Byte := ⟨c.toNat % 256, Nat.mod_lt _ (by decide)⟩

/-- The bytes of an ASCII string literal. -/
def str (s : String) : Str := s.toList.map ch

/-! ## `class Base64` -/

namespace Base64

/-- The table `base64_chars` shared by `encode` and `decode`. -/
def base64_chars : Str :=
  str "ABCDEFGHIJKLMNOPQRSTUVWXYZabcdefghijklmnopqrstuvwxyz0123456789-_"

/-- The lookup `base64_chars[k]`; every index the code uses is below 64. -/
def charAt (k : Nat) : Byte := base64_chars.getD k 0

/-- First output symbol index: `(char_array_3[0] & 0xfc) >> 2`. -/
def idx0 (c0 : Nat) : Nat := (c0 &&& 0xfc) >>> 2

/-- Second output symbol index:
`((char_array_3[0] & 0x03) << 4) + ((char_array_3[1] & 0xf0) >> 4)`. -/
def idx1 (c0 c1 : Nat) : Nat := ((c0 &&& 0x03) <<< 4) + ((c1 &&& 0xf0) >>> 4)

/-- Third output symbol index:
`((char_array_3[1] & 0x0f) << 2) + ((char_array_3[2] & 0xc0) >> 6)`. -/
def idx2 (c1 c2 : Nat) : Nat := ((c1 &&& 0x0f) <<< 2) + ((c2 &&& 0xc0) >>> 6)

/-- Fourth output symbol index: `char_array_3[2] & 0x3f`. -/
def idx3 (c2 : Nat) : Nat := c2 &&& 0x3f

/-- The four entries of `char_array_4` computed from `char_array_3`. -/
def charArray4 (c0 c1 c2 : Nat) : List Nat := [idx0 c0, idx1 c0 c1, idx2 c1 c2, idx3 c2]

/-- The main loop of `encode` (lines 31-41) followed by the tail block (lines 42-48).
State: the counter `i`, the three cells of `char_array_3` and the output `ret`. -/
def encodeLoop : Str → Nat → Nat → Nat → Nat → Str → Str
  | [], i, c0, c1, c2, ret =>
    if i = 0 then ret
    else
      -- for (j = i; j < 3; j++) char_array_3[j] = 0
      let c1z := if i ≤ 1 then 0 else c1
      let c2z := if i ≤ 2 then 0 else c2
      -- only char_array_4[0..2] are computed here; the first i + 1 are emitted
      ret ++ (([idx0 c0, idx1 c0 c1z, idx2 c1z c2z].take (i + 1)).map charAt)
  | x :: xs, i, c0, c1, c2, ret =>
    -- char_array_3[i++] = input[n]
    let d0 := if i = 0 then x.val else c0
    let d1 := if i = 1 then x.val else c1
    let d2 := if i = 2 then x.val else c2
    if i + 1 = 3 then
      encodeLoop xs 0 d0 d1 d2 (ret ++ (charArray4 d0 d1 d2).map charAt)
    else
      encodeLoop xs (i + 1) d0 d1 d2 ret

/-- `Base64::encode`. The initial content of `char_array_3` is never read before it
is written, so the cells start at an arbitrary value (0). -/
def encode (input : Str) : Str := encodeLoop input 0 0 0 0 []

/-- The table `T` of `decode`: 256 entries `-1`, then `T[base64_chars[i]] = i`
for `i = 0 .. 63`. -/
def T : List Int :=
  (List.range 64).foldl (fun t i => t.set (charAt i).val (i : Int)) (List.replicate 256 (-1))

/-- The entry `T[c]`. -/
def tAt (c : Byte) : Int := T.getD c.val (-1)

/-- A value reduced to the range of a 32-bit two's-complement `int`. -/
def wrapInt32 (x : Int) : Int := (x + 2147483648) % 4294967296 - 2147483648

/-- The loop of `decode` (lines 58-66) over the remaining input, with the state
`val`, `valb` and the output `ret`. `val << 6` wraps to 32 bits; adding `T[c] < 64`
to a multiple of 64 cannot overflow. `(val >> valb) & 0xFF` is an arithmetic shift
followed by a mask, that is floor division and remainder. -/
def decodeLoop : Str → Int → Int → Str → Str
  | [], _, _, ret => ret
  | c :: cs, val, valb, ret =>
    if tAt c = -1 then ret
    else
      let val1 := wrapInt32 (val * 64) + tAt c
      let valb1 := valb + 6
      if 0 ≤ valb1 then
        decodeLoop cs val1 (valb1 - 8)
          (ret ++ [⟨((val1 / 2 ^ valb1.toNat) % 256).toNat % 256, Nat.mod_lt _ (by decide)⟩])
      else
        decodeLoop cs val1 valb1 ret

/-- `Base64::decode`. -/
def decode (input : Str) : Str := decodeLoop input 0 (-8) []

/-- The output of `encode` written group by group: four symbols for every three
input bytes, then two or three symbols for a final group of one or two bytes.
Used to reason about `encode`; `encode_eq_encodeGroups` relates the two. -/
def encodeGroups : Str → Str
  | a :: b :: c :: rest =>
    charAt (a.val / 4) :: charAt (a.val % 4 * 16 + b.val / 16) ::
      charAt (b.val % 16 * 4 + c.val / 64) :: charAt (c.val % 64) :: encodeGroups rest
  | [a, b] => [charAt (a.val / 4), charAt (a.val % 4 * 16 + b.val / 16), charAt (b.val % 16 * 4)]
  | [a] => [charAt (a.val / 4), charAt (a.val % 4 * 16)]
  | [] => []

end Base64

/-- The symbols allowed in a token: ASCII letters, digits, `-` and `_`. -/
def isTokenSymbol (c : Byte) : Bool :=
  (65 ≤ c.val && c.val ≤ 90) || (97 ≤ c.val && c.val ≤ 122) || (48 ≤ c.val && c.val ≤ 57) ||
    c == ch '-' || c == ch '_'

/-! ## `std::string` operations -/

namespace StdString

/-- Search for `needle` in `hay`, whose first byte has index `idx`; the index of the
first occurrence, `none` for `npos`. -/
def findAux (needle : Str) : Str → Nat → Option Nat
  | [], idx => if needle.isPrefixOf [] then some idx else none
  | c :: cs, idx => if needle.isPrefixOf (c :: cs) then some idx else findAux needle cs (idx + 1)

/-- The call `s.find(needle, pos)`; `none` stands for `std::string::npos`. -/
def find (s needle : Str) (pos : Nat) : Option Nat :=
  if s.length < pos then none else findAux needle (s.drop pos) pos

/-- The call `s.substr(pos, n)` for `pos <= s.size()`. -/
def substr (s : Str) (pos n : Nat) : Str := (s.drop pos).take n

/-- The call `s.replace(pos, len, r)`: `none` when it throws `std::out_of_range`
(`pos > s.size()`); otherwise at most `len` bytes from `pos` are replaced by `r`. -/
def replace (s : Str) (pos len : Nat) (r : Str) : Option Str :=
  if s.length < pos then none else some (s.take pos ++ r ++ s.drop (pos + len))

/-- The call `s.insert(pos, r)`: `none` when it throws `std::out_of_range`. -/
def insert (s : Str) (pos : Nat) (r : Str) : Option Str :=
  if s.length < pos then none else some (s.take pos ++ r ++ s.drop pos)

/-- The decimal digits written by `operator<<` / `std::to_string` for a size. -/
def decimal (n : Nat) : Str := str (toString n)

end StdString

/-! ## `class RateLimiter` -/

/-- The constant `MAX_REQUESTS_PER_MINUTE`. -/
def MAX_REQUESTS_PER_MINUTE : Int := 120

namespace RateLimiter

/-- The record `ClientInfo`: `request_count` is an `int`, `window_start` a
`steady_clock::time_point`, held as its tick count since the clock's epoch. -/
structure ClientInfo where
  request_count : Int
  window_start : Int
  deriving DecidableEq, Repr

/-- The map `clients`: `none` for a key that has no entry. -/
abbrev Clients := Str → Option ClientInfo

/-- The map of a new `RateLimiter`. -/
def empty : Clients := fun _ => none

/-- The number of `steady_clock` ticks (nanoseconds) in one minute. -/
def TICKS_PER_MINUTE : Int := 60000000000

/-- The value `duration_cast<minutes>(now - window_start).count()`: the tick
difference divided by a minute, truncated towards zero. -/
def elapsedMinutes (now window_start : Int) : Int := Int.tdiv (now - window_start) TICKS_PER_MINUTE

/-- The entry `clients[client_ip]`: a missing entry is created value-initialised,
with `request_count = 0` and `window_start` the clock's epoch. -/
def entry (clients : Clients) (client_ip : Str) : ClientInfo :=
  (clients client_ip).getD { request_count := 0, window_start := 0 }

/-- The map with the entry of `client_ip` set to `info`. -/
def store (clients : Clients) (client_ip : Str) (info : ClientInfo) : Clients :=
  fun k => if k = client_ip then some info else clients k

/-- The body of `allowRequest` for a ceiling `ceiling`, at the clock reading `now`:
the returned flag and the map afterwards. -/
def allowRequestWith (ceiling : Int) (clients : Clients) (now : Int) (client_ip : Str) :
    Bool × Clients :=
  let info := entry clients client_ip
  let info :=
    if 1 ≤ elapsedMinutes now info.window_start then
      { request_count := 0, window_start := now }
    else info
  if ceiling ≤ info.request_count then (false, store clients client_ip info)
  else (true, store clients client_ip { info with request_count := info.request_count + 1 })

/-- `RateLimiter::allowRequest`, with the clock reading `now` of the call. -/
def allowRequest (clients : Clients) (now : Int) (client_ip : Str) : Bool × Clients :=
  allowRequestWith MAX_REQUESTS_PER_MINUTE clients now client_ip

/-- Successive calls `allowRequest(client_ip)` at the clock readings `times`: the
returned flags in order and the final map. -/
def callsWith (ceiling : Int) (client_ip : Str) : Clients → List Int → List Bool × Clients
  | clients, [] => ([], clients)
  | clients, t :: ts =>
    let r := allowRequestWith ceiling clients t client_ip
    let rest := callsWith ceiling client_ip r.2 ts
    (r.1 :: rest.1, rest.2)

/-- Successive calls of `RateLimiter::allowRequest` for one client. -/
def calls (client_ip : Str) (clients : Clients) (times : List Int) : List Bool × Clients :=
  callsWith MAX_REQUESTS_PER_MINUTE client_ip clients times

/-- The map after a sequence of calls `allowRequest`, each with its clock reading
and its client identity. -/
def run : Clients → List (Int × Str) → Clients
  | clients, [] => clients
  | clients, (now, client_ip) :: rest => run (allowRequest clients now client_ip).2 rest

/-- The counts of all entries lie between 0 and the ceiling. -/
def CountsBounded (clients : Clients) : Prop :=
  ∀ (k : Str) (info : ClientInfo), clients k = some info →
    0 ≤ info.request_count ∧ info.request_count ≤ MAX_REQUESTS_PER_MINUTE

end RateLimiter

/-! ## `class URLRewriter` -/

namespace URLRewriter

open StdString

/-- The class `\s` of the regular expression in the "C" locale: space, `\t`, `\n`,
`\v`, `\f`, `\r`. -/
def isSpace (c : Byte) : Bool := c.val = 32 || (9 ≤ c.val && c.val ≤ 13)

/-- The bracket expression `[^\"'\s<>]`: any byte but a double quote, a single
quote, white space, `<` and `>`. -/
def urlChar (c : Byte) : Bool :=
  !(c.val = 34 || c.val = 39 || isSpace c || c == ch '<' || c == ch '>')

/-- An attempt to match `scheme` followed by `[^\"'\s<>]+` at the head of `s`: the
length of the match. The quantifier is greedy and nothing follows it, so it takes
the longest run. -/
def matchScheme (scheme s : Str) : Option Nat :=
  if scheme.isPrefixOf s then
    let run := (s.drop scheme.length).takeWhile urlChar
    if 1 ≤ run.length then some (scheme.length + run.length) else none
  else none

/-- A match of `(https?://[^\"'\s<>]+)` anchored at the head of `s`: the length of
the match. The optional `s` is tried first. -/
def matchHere (s : Str) : Option Nat :=
  match matchScheme (str "https://") s with
  | some l => some l
  | none => matchScheme (str "http://") s

/-- The leftmost match of the pattern in `s`, which is what `std::regex_search`
reports when it returns: position and length. -/
def leftmostMatch : Str → Option (Nat × Nat)
  | [] => none
  | c :: cs =>
    match matchHere (c :: cs) with
    | some l => some (0, l)
    | none =>
      match leftmostMatch cs with
      | some (p, l) => some (p + 1, l)
      | none => none

/-- The call `std::regex_search(start, end, match, url_regex)` on the bytes from
`start` on, for an engine that follows the greedy run of one match over at most
`capacity` bytes of match. The outer `none`: the call does not return (the stack
is exhausted, or `std::regex_error` is thrown, which `rewrite` does not catch).
Otherwise position (relative to `start`) and length of the leftmost match, if any.
Before the leftmost match no attempt gets past the scheme, so only the length of
that match counts. -/
def regexSearch (capacity : Nat) (s : Str) : Option (Option (Nat × Nat)) :=
  match leftmostMatch s with
  | none => some none
  | some (p, l) => if capacity < l then none else some (some (p, l))

/-- One element of `replacements`: `(pos, (length, proxy_url))`. -/
structure Replacement where
  pos : Nat
  len : Nat
  text : Str
  deriving DecidableEq, Repr

/-- The text that replaces a matched URL: `proxy_base + "/proxy/" + encoded`. -/
def proxyUrl (proxy_base original_url : Str) : Str :=
  proxy_base ++ str "/proxy/" ++ Base64.encode original_url

/-- The scan loop of `rewrite` (lines 142-149), `start` being the offset of the
iterator `start` in `result`. One unit of fuel per iteration; `none` when the fuel
runs out or a `regex_search` does not return. -/
def collectLoop (capacity : Nat) (proxy_base result : Str) :
    Nat → Nat → List Replacement → Option (List Replacement)
  | 0, _, _ => none
  | fuel + 1, start, replacements =>
    match regexSearch capacity (result.drop start) with
    | none => none
    | some none => some replacements
    | some (some (p, l)) =>
      let original_url := substr result (start + p) l
      let proxy_url := proxyUrl proxy_base original_url
      let pos := p + start
      collectLoop capacity proxy_base result fuel (start + p + l)
        (replacements ++ [{ pos := pos, len := original_url.length, text := proxy_url }])

/-- The loop of lines 151-153 over the replacements in iteration order (last
collected first); `none` when a `replace` throws. -/
def applyReplacements : List Replacement → Str → Option Str
  | [], result => some result
  | r :: rs, result =>
    match StdString.replace result r.pos r.len r.text with
    | none => none
    | some result1 => applyReplacements rs result1

/-- The tag built at line 157. -/
def baseTag (proxy_base base_url : Str) : Str :=
  str "<base href=\"" ++ proxy_base ++ str "/proxy/" ++ Base64.encode base_url ++ str "/\">"

/-- `URLRewriter::rewrite` for a rewriter whose `proxy_base` is given, with a regex
engine of the given capacity. `none` when the call does not return: a
`regex_search` does not return, a `replace` or `insert` throws, or the scan loop
does not end within `html.length + 1` iterations. -/
def rewrite (capacity : Nat) (proxy_base html base_url : Str) : Option Str :=
  match collectLoop capacity proxy_base html (html.length + 1) 0 [] with
  | none => none
  | some replacements =>
    match applyReplacements replacements.reverse html with
    | none => none
    | some result =>
      match find result (str "<head>") 0 with
      | none => some result
      | some head_pos => StdString.insert result (head_pos + 6) (baseTag proxy_base base_url)

/-- The substitution as the specification words it: scan in document order, replace
each successive non-overlapping match by `proxyBase + "/proxy/" + encode(match)`,
copy every other byte. `skip` counts the bytes of the current match still to pass. -/
def specSubstitute (proxy_base : Str) : Str → Nat → Str
  | [], _ => []
  | _ :: cs, skip + 1 => specSubstitute proxy_base cs skip
  | c :: cs, 0 =>
    match matchHere (c :: cs) with
    | some l => proxyUrl proxy_base ((c :: cs).take l) ++ specSubstitute proxy_base cs (l - 1)
    | none => c :: specSubstitute proxy_base cs 0

/-- The injection as the specification words it: `tag` inserted immediately after
the first `<head>`, if there is one. -/
def specInjectBase (tag : Str) : Str → Str
  | [] => []
  | c :: cs =>
    if (str "<head>").isPrefixOf (c :: cs) then
      str "<head>" ++ tag ++ (c :: cs).drop 6
    else c :: specInjectBase tag cs

/-- The rewrite as the specification words it: substitution, then injection. -/
def specRewrite (proxy_base html base_url : Str) : Str :=
  specInjectBase (baseTag proxy_base base_url) (specSubstitute proxy_base html 0)

/-- A string of the form `http://` or `https://` followed by one or more bytes
other than quotes, white space, `<` and `>`. -/
def IsAbsoluteUrl (m : Str) : Prop :=
  ∃ body : Str, (m = str "http://" ++ body ∨ m = str "https://" ++ body) ∧
    body ≠ [] ∧ ∀ c ∈ body, urlChar c = true

/-- The string has a substring matching the absolute-URL pattern. -/
def HasUrlMatch (html : Str) : Prop :=
  ∃ pre m post : Str, html = pre ++ m ++ post ∧ IsAbsoluteUrl m

/-- Every substring of `html` that matches the absolute-URL pattern has at most
`capacity` bytes. -/
def FitsEngine (capacity : Nat) (html : Str) : Prop :=
  ∀ pre m post : Str, html = pre ++ m ++ post → IsAbsoluteUrl m → m.length ≤ capacity

end URLRewriter

/-! ## `class HTTPFetcher` -/

namespace HTTPFetcher

/-- The record `FetchResult`. -/
structure FetchResult where
  content : Str
  content_type : Str
  error : Str
  status_code : Int
  success : Bool
  deriving DecidableEq, Repr

end HTTPFetcher

/-! ## `class HTTPServer` -/

namespace HTTPServer

open StdString

/-- What a call of `handleClient` reads from outside the program: the reading of the
steady clock in `allowRequest`, the result of `fetcher.fetch` for each URL, the
content of the stack slot of the local `value` before `sscanf` first assigns it,
and the capacity of the regex engine (see `URLRewriter.regexSearch`). -/
structure Env where
  now : Int
  fetch : Str → HTTPFetcher.FetchResult
  uninit : Int
  regex_capacity : Nat

/-- What a call of `handleClient` does: the buffers handed to `send` in order, the
URLs handed to `fetcher.fetch` in order, and the rate limiter's map afterwards. -/
structure Outcome where
  sent : List Str
  fetched : List Str
  clients : RateLimiter.Clients

/-- The status line text chosen by `sendResponse`. -/
def statusStr (status : Int) : Str :=
  if status = 200 then str "200 OK"
  else if status = 429 then str "429 Too Many Requests"
  else if status = 400 then str "400 Bad Request"
  else str "502 Bad Gateway"

/-- `HTTPServer::sendResponse`: the buffer `fullResponse` handed to `send`. -/
def sendResponse (status : Int) (contentType body : Str) : Str :=
  str "HTTP/1.1 " ++ statusStr status ++ str "\r\n" ++
  str "Content-Type: " ++ contentType ++ str "\r\n" ++
  str "Content-Length: " ++ decimal body.length ++ str "\r\n" ++
  str "Access-Control-Allow-Origin: *\r\n" ++
  str "Connection: close\r\n\r\n" ++
  body

/-- The text appended by `escapeJSON` for one byte. -/
def escapeByte (c : Byte) : Str :=
  if c = ch '"' then str "\\\""
  else if c = ch '\\' then str "\\\\"
  else if c = ch '\n' then str "\\n"
  else if c = ch '\r' then str "\\r"
  else if c = ch '\t' then str "\\t"
  else if c.val = 8 then str "\\b"
  else if c.val = 12 then str "\\f"
  else [c]

/-- `HTTPServer::escapeJSON`. -/
def escapeJSON : Str → Str
  | [] => []
  | c :: cs => escapeByte c ++ escapeJSON cs

/-- The request-line parse of lines 207-212: `(method, path)`. When `s1` is `npos`,
`s1 + 1` wraps to 0 and `s2` is `npos` too. -/
def parseRequestLine (request : Str) : Str × Str :=
  match find request (str " ") 0 with
  | none => ([], [])
  | some s1 =>
    match find request (str " ") (s1 + 1) with
    | none => ([], [])
    | some s2 => (substr request 0 s1, substr request (s1 + 1) (s2 - s1 - 1))

/-- The value of a hexadecimal digit. -/
def hexDigit (c : Byte) : Option Nat :=
  if 48 ≤ c.val ∧ c.val ≤ 57 then some (c.val - 48)
  else if 97 ≤ c.val ∧ c.val ≤ 102 then some (c.val - 87)
  else if 65 ≤ c.val ∧ c.val ≤ 70 then some (c.val - 55)
  else none

/-- The content of `value` after `sscanf(s, "%x", &value)` on the two bytes `h l`,
`value` being its content before: white space is skipped, a sign is accepted, then
the hexadecimal digits are read (a bare `0x` stores 0). Where there is no digit
nothing is assigned and `value` keeps its content. -/
def sscanfHex (value : Int) (h l : Byte) : Int :=
  match hexDigit h, hexDigit l with
  | some a, some b => 16 * (a : Int) + b
  | some a, none => a
  | none, some b =>
    if URLRewriter.isSpace h ∨ h = ch '+' then b
    else if h = ch '-' then -(b : Int)
    else value
  | none, none => value

/-- The conversion `static_cast<char>(value)`. -/
def toChar (value : Int) : Byte := ⟨(value % 256).toNat % 256, Nat.mod_lt _ (by decide)⟩

/-- The decoding loop of the `/navigate` route (lines 305-316). The local `value` is
declared without initialiser inside the loop body: `value` is the content of its
stack slot, which is what the previous escape left there. -/
def percentDecode (value : Int) : Str → Str
  | [] => []
  | c :: h :: l :: rest =>
    if c = ch '%' then
      toChar (sscanfHex value h l) :: percentDecode (sscanfHex value h l) rest
    else if c = ch '+' then ch ' ' :: percentDecode value (h :: l :: rest)
    else c :: percentDecode value (h :: l :: rest)
  | c :: rest =>
    if c = ch '+' then ch ' ' :: percentDecode value rest
    else c :: percentDecode value rest

/-- The landing page of lines 324-329. -/
def home : Str :=
  str ("<!DOCTYPE html><html><head><title>Cypher Proxy</title></head><body>" ++
    "<h1>Cypher Web Proxy</h1>" ++
    "<form action=\"/navigate\" method=\"get\">" ++
    "<input type=\"text\" name=\"url\" placeholder=\"Enter URL (e.g., https://example.com)\" style=\"width:500px\">" ++
    "<button type=\"submit\">Go</button>" ++
    "</form></body></html>")

/-- The `proxy_base` given to the rewriter by the constructor. -/
def proxyBase (port : Nat) : Str := str "http://localhost:" ++ decimal port

/-- The `POST /fetch` route (lines 225-258), after admission. -/
def fetchRoute (env : Env) (clients : RateLimiter.Clients) (request : Str) : Outcome :=
  match find request (str "\r\n\r\n") 0 with
  | none =>
    { sent := [sendResponse 400 (str "application/json") (str "\x7b\"error\":\"No request body\"\x7d")],
      fetched := [], clients := clients }
  | some body_start =>
    let body := request.drop (body_start + 4)
    match find body (str "\"url\":\"") 0 with
    | none =>
      { sent := [sendResponse 400 (str "application/json")
          (str "\x7b\"error\":\"Missing url field\"\x7d")],
        fetched := [], clients := clients }
    | some url_start0 =>
      let url_start := url_start0 + 7
      -- with `url_end == npos` the length `url_end - url_start` exceeds the rest of `body`
      let url :=
        match find body (str "\"") url_start with
        | none => body.drop url_start
        | some url_end => substr body url_start (url_end - url_start)
      let result := env.fetch url
      if result.success then
        { sent := [sendResponse 200 (str "application/json")
            (str "\x7b\"success\":true,\"content\":\"" ++ escapeJSON result.content ++
              str "\",\"contentType\":\"" ++ result.content_type ++ str "\"\x7d")],
          fetched := [url], clients := clients }
      else
        { sent := [sendResponse 502 (str "application/json")
            (str "\x7b\"success\":false,\"error\":\"" ++ result.error ++ str "\"\x7d")],
          fetched := [url], clients := clients }

/-- The `/proxy/` route (lines 261-300), after admission. `Base64::decode` does not
throw, so the `catch` block is not entered. The call of `rewrite` is outside any
`try`: when it does not return, `handleClient` ends before anything is sent. -/
def proxyRoute (port : Nat) (env : Env) (clients : RateLimiter.Clients) (path : Str) : Outcome :=
  let encoded_url0 := path.drop 7
  let encoded_url :=
    match find encoded_url0 (str "/") 0 with
    | none => encoded_url0
    | some slash_pos => substr encoded_url0 0 slash_pos
  let url := Base64.decode encoded_url
  if ¬ (str "http://").isPrefixOf url ∧ ¬ (str "https://").isPrefixOf url then
    { sent := [sendResponse 400 (str "text/plain")
        (str "Invalid URL - must start with http:// or https://")],
      fetched := [], clients := clients }
  else
    let result := env.fetch url
    if result.success then
      if (find result.content_type (str "text/html") 0).isSome then
        match URLRewriter.rewrite env.regex_capacity (proxyBase port) result.content url with
        | none => { sent := [], fetched := [url], clients := clients }
        | some content =>
          { sent := [sendResponse 200 result.content_type content],
            fetched := [url], clients := clients }
      else
        { sent := [sendResponse 200 result.content_type result.content],
          fetched := [url], clients := clients }
    else
      { sent := [sendResponse 502 (str "text/plain") (str "Failed to fetch: " ++ result.error)],
        fetched := [url], clients := clients }

/-- The `/navigate?url=` route (lines 303-320): the redirect is written by hand and
handed to `send` directly. -/
def navigateRoute (env : Env) (clients : RateLimiter.Clients) (path : Str) : Outcome :=
  let url := path.drop 14
  let decoded_url := percentDecode env.uninit url
  let encoded := Base64.encode decoded_url
  { sent := [str "HTTP/1.1 302 Found\r\nLocation: /proxy/" ++ encoded ++ str "\r\n\r\n"],
    fetched := [], clients := clients }

/-- `HTTPServer::handleClient` for a server listening on `port`, whose rate limiter
holds `clients`, on the bytes `request` returned by `recv` (empty when `recv`
returns no data). The client identity is the constant `"client_ip"`. -/
def handleClient (port : Nat) (env : Env) (clients : RateLimiter.Clients) (request : Str) :
    Outcome :=
  if request.length = 0 then { sent := [], fetched := [], clients := clients }
  else
    let method := (parseRequestLine request).1
    let path := (parseRequestLine request).2
    let admission := RateLimiter.allowRequest clients env.now (str "client_ip")
    let clients1 := admission.2
    if admission.1 = false then
      { sent := [sendResponse 429 (str "application/json")
          (str "\x7b\"error\":\"Rate limit exceeded\"\x7d")],
        fetched := [], clients := clients1 }
    else if method = str "POST" ∧ path = str "/fetch" then fetchRoute env clients1 request
    else if (str "/proxy/").isPrefixOf path then proxyRoute port env clients1 path
    else if (str "/navigate?url=").isPrefixOf path then navigateRoute env clients1 path
    else { sent := [sendResponse 200 (str "text/html") home], fetched := [], clients := clients1 }

end HTTPServer

/-! ## Further definitions: fetch loop, accept loop, encodings -/

/-- The constant `MAX_RESPONSE_SIZE`. -/
def MAX_RESPONSE_SIZE : Nat := 50 * 1024 * 1024

namespace HTTPFetcher

/-- What `fetch` meets on the network for one URL: whether `InternetOpenA` and
`InternetOpenUrlA` return a handle, the content type reported by `HttpQueryInfoA`
(if any), and the data returned by the successive calls of `InternetReadFile`
(the list ends where a call fails). -/
structure Origin where
  opened : Bool
  connected : Bool
  contentType : Option Str
  chunks : List Str

/-- The read loop of `fetch` (lines 103-107) from the state `response`,
`total_size`, `result`: a read of 0 bytes ends the loop; a total above
`MAX_RESPONSE_SIZE` returns `result` with the error set. After the loop, line 108
fills in the content. -/
def readLoop (result : FetchResult) : List Str → Str → Nat → FetchResult
  | [], response, _ => { result with content := response, status_code := 200, success := true }
  | chunk :: rest, response, total_size =>
    if chunk.length = 0 then
      { result with content := response, status_code := 200, success := true }
    else if MAX_RESPONSE_SIZE < total_size + chunk.length then
      { result with error := str "Response too large" }
    else readLoop result rest (response ++ chunk) (total_size + chunk.length)

/-- `HTTPFetcher::fetch` against what the network answers for the URL. -/
def fetch (origin : Origin) : FetchResult :=
  let result : FetchResult :=
    { content := [], content_type := str "text/html", error := [], status_code := 0,
      success := false }
  if origin.opened = false then { result with error := str "Failed to initialize" }
  else if origin.connected = false then { result with error := str "Failed to open URL" }
  else
    let result1 :=
      match origin.contentType with
      | some t => { result with content_type := t }
      | none => result
    readLoop result1 origin.chunks [] 0

end HTTPFetcher

namespace HTTPServer

open StdString

/-- The token cut out of the path by the `/proxy/` route (lines 261-263). -/
def extractToken (path : Str) : Str :=
  match find (path.drop 7) (str "/") 0 with
  | none => path.drop 7
  | some slash_pos => substr (path.drop 7) 0 slash_pos

/-- The byte strings `e` that are a percent/plus-encoding of `u`: every byte of `u`
is written literally (when it is not `%`, `+` or a space), or as `%` and two
hexadecimal digits of its value, or, for a space, as `+`. -/
inductive IsEncoding : Str → Str → Prop
  | done : IsEncoding [] []
  | literal (c : Byte) (u e : Str) :
      c ≠ ch '%' → c ≠ ch '+' → c ≠ ch ' ' → IsEncoding u e → IsEncoding (c :: u) (c :: e)
  | percent (c h l : Byte) (a b : Nat) (u e : Str) :
      hexDigit h = some a → hexDigit l = some b → c.val = 16 * a + b → IsEncoding u e →
      IsEncoding (c :: u) (ch '%' :: h :: l :: e)
  | plus (u e : Str) : IsEncoding u e → IsEncoding (ch ' ' :: u) (ch '+' :: e)

/-- The response written by the `/navigate` route for the target `u`. -/
def redirectTo (u : Str) : Str :=
  str "HTTP/1.1 302 Found\r\nLocation: /proxy/" ++ Base64.encode u ++ str "\r\n\r\n"

/-- The byte denoted by the character after a backslash in a JSON string, for the
two-character escapes. -/
def unescapeChar (e : Byte) : Option Byte :=
  if e = ch '"' then some (ch '"')
  else if e = ch '\\' then some (ch '\\')
  else if e = ch 'n' then some (ch '\n')
  else if e = ch 'r' then some (ch '\r')
  else if e = ch 't' then some (ch '\t')
  else if e = ch 'b' then some 8
  else if e = ch 'f' then some 12
  else none

/-- The value of the content of a JSON string literal written with two-character
escapes only: `none` when a quote or a backslash is not part of an escape. -/
def unescapeJSON : Str → Option Str
  | [] => some []
  | [c] => if c = ch '\\' ∨ c = ch '"' then none else some [c]
  | c :: e :: rest =>
    if c = ch '\\' then
      match unescapeChar e, unescapeJSON rest with
      | some b, some v => some (b :: v)
      | _, _ => none
    else if c = ch '"' then none
    else
      match unescapeJSON (e :: rest) with
      | some v => some (c :: v)
      | none => none

end HTTPServer

namespace URLRewriter

/-- The replacements `reps`, in order, are matches of the pattern in `html` found
at or after `start`, one after the other. -/
def GoodFrom (proxy_base html : Str) : Nat → List Replacement → Prop
  | _, [] => True
  | start, r :: rs =>
    start ≤ r.pos ∧ r.pos + r.len ≤ html.length ∧ matchHere (html.drop r.pos) = some r.len ∧
      r.text = proxyUrl proxy_base (StdString.substr html r.pos r.len) ∧
      GoodFrom proxy_base html (r.pos + r.len) rs

end URLRewriter

/-! ## Theorems: Base64 -/

namespace Base64

theorem and_fc_shift (c : Nat) (h : c < 256) : (c &&& 0xfc) >>> 2 = c / 4 := by
  revert c; decide

theorem and_03_shift (c : Nat) (h : c < 256) : (c &&& 0x03) <<< 4 = (c % 4) * 16 := by
  revert c; decide

theorem and_f0_shift (c : Nat) (h : c < 256) : (c &&& 0xf0) >>> 4 = c / 16 := by
  revert c; decide

theorem and_0f_shift (c : Nat) (h : c < 256) : (c &&& 0x0f) <<< 2 = (c % 16) * 4 := by
  revert c; decide

theorem and_c0_shift (c : Nat) (h : c < 256) : (c &&& 0xc0) >>> 6 = c / 64 := by
  revert c; decide

theorem and_3f (c : Nat) (h : c < 256) : c &&& 0x3f = c % 64 := by
  revert c; decide

theorem charArray4_eq (a b c : Byte) :
    charArray4 a.val b.val c.val =
      [a.val / 4, a.val % 4 * 16 + b.val / 16, b.val % 16 * 4 + c.val / 64, c.val % 64] := by
  simp [charArray4, idx0, idx1, idx2, idx3, and_fc_shift, and_03_shift, and_f0_shift,
    and_0f_shift, and_c0_shift, and_3f, a.isLt, b.isLt, c.isLt]

theorem encodeLoop_eq_encodeGroups (u : Str) :
    ∀ (x y z : Nat) (ret : Str), encodeLoop u 0 x y z ret = ret ++ encodeGroups u := by
  induction u using encodeGroups.induct with
  | case1 a b c rest ih =>
    intro x y z ret
    simp [encodeLoop, encodeGroups, ih, charArray4_eq]
  | case2 a b =>
    intro x y z ret
    simp [encodeLoop, encodeGroups, idx0, idx1, idx2, and_fc_shift, and_03_shift, and_f0_shift,
      and_0f_shift, a.isLt, b.isLt]
  | case3 a =>
    intro x y z ret
    simp [encodeLoop, encodeGroups, idx0, idx1, and_fc_shift, and_03_shift, a.isLt]
  | case4 =>
    intro x y z ret
    simp [encodeLoop, encodeGroups]

theorem encode_eq_encodeGroups (u : Str) : encode u = encodeGroups u := by
  simp [encode, encodeLoop_eq_encodeGroups]

theorem tAt_charAt (k : Nat) (h : k < 64) : tAt (charAt k) = (k : Int) := by
  revert k; decide

theorem decodeLoop_symbol (k : Nat) (h : k < 64) (cs : Str) (val valb : Int) (ret : Str) :
    decodeLoop (charAt k :: cs) val valb ret =
      if 0 ≤ valb + 6 then
        decodeLoop cs (wrapInt32 (val * 64) + k) (valb + 6 - 8)
          (ret ++ [⟨(((wrapInt32 (val * 64) + k) / 2 ^ (valb + 6).toNat) % 256).toNat % 256,
            Nat.mod_lt _ (by decide)⟩])
      else decodeLoop cs (wrapInt32 (val * 64) + k) (valb + 6) ret := by
  have hk : tAt (charAt k) ≠ -1 := by rw [tAt_charAt k h]; omega
  simp [decodeLoop, hk, tAt_charAt k h]

theorem decodeLoop_group (a b c : Byte) (rest : Str) (val : Int) (ret : Str) :
    ∃ val1, decodeLoop (charAt (a.val / 4) :: charAt (a.val % 4 * 16 + b.val / 16) ::
        charAt (b.val % 16 * 4 + c.val / 64) :: charAt (c.val % 64) :: rest) val (-8) ret =
      decodeLoop rest val1 (-8) (ret ++ [a, b, c]) := by
  have ha := a.isLt
  have hb := b.isLt
  have hc := c.isLt
  refine ⟨wrapInt32 ((wrapInt32 ((wrapInt32 ((wrapInt32 (val * 64) + ((a.val / 4 : Nat) : Int)) * 64)
    + ((a.val % 4 * 16 + b.val / 16 : Nat) : Int)) * 64)
    + ((b.val % 16 * 4 + c.val / 64 : Nat) : Int)) * 64) + ((c.val % 64 : Nat) : Int), ?_⟩
  rw [decodeLoop_symbol _ (by omega), if_neg (by omega),
    decodeLoop_symbol _ (by omega), if_pos (by omega),
    decodeLoop_symbol _ (by omega), if_pos (by omega),
    decodeLoop_symbol _ (by omega), if_pos (by omega)]
  have e1 : (-8 + 6 + 6 - 8 : Int) = -4 := by norm_num
  have e2 : (-8 + 6 + 6 : Int).toNat = 4 := by decide
  have e3 : (-4 + 6 : Int).toNat = 2 := by decide
  have e4 : (-4 + 6 - 8 : Int) = -6 := by norm_num
  have e5 : (-6 + 6 : Int).toNat = 0 := by decide
  have e6 : (-6 + 6 - 8 : Int) = -8 := by norm_num
  simp only [e1, e2, e3, e4, e5, e6]
  have key : ∀ (v : Int) (x y z : Byte), x = a → y = b → z = c →
      decodeLoop rest v (-8) (ret ++ [x] ++ [y] ++ [z]) =
        decodeLoop rest v (-8) (ret ++ [a, b, c]) := by
    intro v x y z hx hy hz
    subst hx hy hz
    simp
  apply key
  · apply Fin.ext
    simp only [wrapInt32]
    omega
  · apply Fin.ext
    simp only [wrapInt32]
    omega
  · apply Fin.ext
    simp only [wrapInt32]
    omega

theorem decodeLoop_tail2 (a b : Byte) (val : Int) (ret : Str) :
    decodeLoop [charAt (a.val / 4), charAt (a.val % 4 * 16 + b.val / 16),
        charAt (b.val % 16 * 4)] val (-8) ret = ret ++ [a, b] := by
  have ha := a.isLt
  have hb := b.isLt
  rw [decodeLoop_symbol _ (by omega), if_neg (by omega),
    decodeLoop_symbol _ (by omega), if_pos (by omega),
    decodeLoop_symbol _ (by omega), if_pos (by omega)]
  have e1 : (-8 + 6 + 6 - 8 : Int) = -4 := by norm_num
  have e2 : (-8 + 6 + 6 : Int).toNat = 4 := by decide
  have e3 : (-4 + 6 : Int).toNat = 2 := by decide
  simp only [e1, e2, e3, decodeLoop]
  have key : ∀ (x y : Byte), x = a → y = b → ret ++ [x] ++ [y] = ret ++ [a, b] := by
    intro x y hx hy
    subst hx hy
    simp
  apply key
  · apply Fin.ext
    simp only [wrapInt32]
    omega
  · apply Fin.ext
    simp only [wrapInt32]
    omega

theorem decodeLoop_tail1 (a : Byte) (val : Int) (ret : Str) :
    decodeLoop [charAt (a.val / 4), charAt (a.val % 4 * 16)] val (-8) ret = ret ++ [a] := by
  have ha := a.isLt
  rw [decodeLoop_symbol _ (by omega), if_neg (by omega),
    decodeLoop_symbol _ (by omega), if_pos (by omega)]
  have e2 : (-8 + 6 + 6 : Int).toNat = 4 := by decide
  simp only [e2, decodeLoop]
  congr 2
  apply Fin.ext
  simp only [wrapInt32]
  omega

theorem decodeLoop_encodeGroups (u : Str) :
    ∀ (val : Int) (ret : Str), decodeLoop (encodeGroups u) val (-8) ret = ret ++ u := by
  induction u using encodeGroups.induct with
  | case1 a b c rest ih =>
    intro val ret
    obtain ⟨val1, h⟩ := decodeLoop_group a b c (encodeGroups rest) val ret
    rw [encodeGroups, h, ih]
    simp
  | case2 a b => intro val ret; rw [encodeGroups, decodeLoop_tail2]
  | case3 a => intro val ret; rw [encodeGroups, decodeLoop_tail1]
  | case4 => intro val ret; simp [encodeGroups, decodeLoop]

theorem decodeLoop_encode (u : Str) : decodeLoop (encode u) 0 (-8) [] = u := by
  rw [encode_eq_encodeGroups, decodeLoop_encodeGroups]
  rfl

/-- For C1: the codec round trip. For every byte string `u`, whatever its length
modulo 3, decoding the token produced by `Base64::encode` gives back `u`. -/
theorem decode_encode (u : Str) : decode (encode u) = u :=
  decodeLoop_encode u

theorem mem_encodeGroups (u : Str) : ∀ c ∈ encodeGroups u, ∃ k, k < 64 ∧ c = charAt k := by
  induction u using encodeGroups.induct with
  | case1 a b c rest ih =>
    intro x hx
    have ha := a.isLt
    have hb := b.isLt
    have hc := c.isLt
    simp only [encodeGroups, List.mem_cons] at hx
    rcases hx with h | h | h | h | h
    · exact ⟨_, by omega, h⟩
    · exact ⟨_, by omega, h⟩
    · exact ⟨_, by omega, h⟩
    · exact ⟨_, by omega, h⟩
    · exact ih x h
  | case2 a b =>
    intro x hx
    have ha := a.isLt
    have hb := b.isLt
    simp only [encodeGroups, List.mem_cons, List.mem_singleton] at hx
    rcases hx with h | h | h | h
    · exact ⟨_, by omega, h⟩
    · exact ⟨_, by omega, h⟩
    · exact ⟨_, by omega, h⟩
    · simp at h
  | case3 a =>
    intro x hx
    have ha := a.isLt
    simp only [encodeGroups, List.mem_cons, List.mem_singleton] at hx
    rcases hx with h | h | h
    · exact ⟨_, by omega, h⟩
    · exact ⟨_, by omega, h⟩
    · simp at h
  | case4 => intro x hx; simp [encodeGroups] at hx

theorem charAt_tokenSymbol (k : Nat) (h : k < 64) :
    isTokenSymbol (charAt k) = true ∧ charAt k ≠ ch '/' ∧ charAt k ≠ ch '+' ∧
      charAt k ≠ ch '=' ∧ charAt k ≠ ch ' ' := by
  revert k; decide

theorem mem_encode (u : Str) (c : Byte) (hc : c ∈ encode u) : ∃ k, k < 64 ∧ c = charAt k := by
  rw [encode_eq_encodeGroups] at hc
  exact mem_encodeGroups u c hc

/-- For C8: the token alphabet. Every symbol of `Base64::encode(u)` is an ASCII
letter, a digit, `-` or `_`; in particular it is none of `/`, `+`, `=` and space. -/
theorem encode_alphabet (u : Str) (c : Byte) (hc : c ∈ encode u) :
    isTokenSymbol c = true ∧ c ≠ ch '/' ∧ c ≠ ch '+' ∧ c ≠ ch '=' ∧ c ≠ ch ' ' := by
  obtain ⟨k, hk, rfl⟩ := mem_encode u c hc
  exact charAt_tokenSymbol k hk

/-- The first symbol of the token of `ab`, the letter `Y`, is in the alphabet. -/
theorem encode_alphabet_witness :
    ch 'Y' ∈ encode (str "ab") ∧ isTokenSymbol (ch 'Y') = true ∧ ch 'Y' ≠ ch '/' ∧
      ch 'Y' ≠ ch '+' ∧ ch 'Y' ≠ ch '=' ∧ ch 'Y' ≠ ch ' ' :=
  ⟨by decide, encode_alphabet (str "ab") (ch 'Y') (by decide)⟩

theorem length_encodeGroups (u : Str) :
    (encodeGroups u).length =
      4 * (u.length / 3) + (match u.length % 3 with | 0 => 0 | 1 => 2 | _ => 3) := by
  induction u using encodeGroups.induct with
  | case1 a b c rest ih =>
    simp only [encodeGroups, List.length_cons, ih]
    have e1 : (rest.length + 1 + 1 + 1) / 3 = rest.length / 3 + 1 := by omega
    have e2 : (rest.length + 1 + 1 + 1) % 3 = rest.length % 3 := by omega
    rw [e1, e2]
    omega
  | case2 a b => simp [encodeGroups]
  | case3 a => simp [encodeGroups]
  | case4 => simp [encodeGroups]

/-- For C9: the token length. For an input of `n` bytes, `Base64::encode` produces
`4 * (n / 3)` symbols when `n % 3 = 0`, `4 * (n / 3) + 2` when `n % 3 = 1` and
`4 * (n / 3) + 3` when `n % 3 = 2`: no padding symbol is emitted. -/
theorem encode_length (u : Str) :
    (encode u).length =
      4 * (u.length / 3) + (match u.length % 3 with | 0 => 0 | 1 => 2 | _ => 3) := by
  rw [encode_eq_encodeGroups, length_encodeGroups]

end Base64

/-! ## Theorems: RateLimiter -/

namespace RateLimiter

theorem one_le_elapsedMinutes (now ws : Int) :
    1 ≤ elapsedMinutes now ws ↔ TICKS_PER_MINUTE ≤ now - ws := by
  unfold elapsedMinutes TICKS_PER_MINUTE
  rcases Int.le_total 0 (now - ws) with h | h
  · rw [Int.tdiv_eq_ediv h (by decide)]
    omega
  · have h1 : 0 ≤ (-(now - ws)).tdiv 60000000000 :=
      Int.tdiv_nonneg (by omega) (by decide)
    rw [Int.neg_tdiv] at h1
    omega

theorem store_same (clients : Clients) (c : Str) (info : ClientInfo) :
    store clients c info c = some info := by
  simp [store]

theorem store_other (clients : Clients) (c k : Str) (info : ClientInfo) (h : k ≠ c) :
    store clients c info k = clients k := by
  simp [store, h]

/-- For C4: window reset. In every state of the map, a call `allowRequest(c)` whose
clock reading is at least one minute after the window start of `c` (the epoch for
a client without entry) returns true, and afterwards the count of `c` is 1 and its
window starts at the time of the call. -/
theorem allowRequest_window_reset (clients : Clients) (now : Int) (c : Str)
    (h : TICKS_PER_MINUTE ≤ now - (entry clients c).window_start) :
    (allowRequest clients now c).1 = true ∧
      (allowRequest clients now c).2 c = some { request_count := 1, window_start := now } := by
  have h1 : 1 ≤ elapsedMinutes now (entry clients c).window_start :=
    (one_le_elapsedMinutes _ _).2 h
  simp [allowRequest, allowRequestWith, h1, MAX_REQUESTS_PER_MINUTE, store]

/-- A client rejected at the ceiling is admitted again one minute after its window
started, with a count of 1. -/
theorem allowRequest_window_reset_witness :
    (allowRequest (store empty (str "x") { request_count := 120, window_start := 7 })
        7 (str "x")).1 = false ∧
    TICKS_PER_MINUTE ≤ 60000000007 -
      (entry (store empty (str "x") { request_count := 120, window_start := 7 })
        (str "x")).window_start ∧
    (allowRequest (store empty (str "x") { request_count := 120, window_start := 7 })
        60000000007 (str "x")).1 = true ∧
    (allowRequest (store empty (str "x") { request_count := 120, window_start := 7 })
        60000000007 (str "x")).2 (str "x") =
      some { request_count := 1, window_start := 60000000007 } :=
  ⟨by decide, by decide,
    allowRequest_window_reset (store empty (str "x") { request_count := 120, window_start := 7 })
      60000000007 (str "x") (by decide)⟩

theorem countsBounded_empty : CountsBounded empty := by
  intro k info h
  simp [empty] at h

theorem countsBounded_allowRequest (clients : Clients) (now : Int) (c : Str)
    (h : CountsBounded clients) : CountsBounded (allowRequest clients now c).2 := by
  have he : 0 ≤ (entry clients c).request_count ∧
      (entry clients c).request_count ≤ MAX_REQUESTS_PER_MINUTE := by
    unfold entry
    cases hc : clients c with
    | none => simp [MAX_REQUESTS_PER_MINUTE]
    | some info => simpa using h c info hc
  intro k info hk
  by_cases hkc : k = c
  · subst hkc
    unfold allowRequest allowRequestWith at hk
    simp only [MAX_REQUESTS_PER_MINUTE] at hk he ⊢
    split_ifs at hk with h1 h2 h2
    · simp [store] at hk
      subst hk
      simp at h2
    · simp [store] at hk
      subst hk
      simp
    · simp [store] at hk
      subst hk
      omega
    · simp [store] at hk
      subst hk
      simp only
      omega
  · have : (allowRequest clients now c).2 k = clients k := by
      simp only [allowRequest, allowRequestWith]
      split_ifs <;> simp [store, hkc]
    rw [this] at hk
    exact h k info hk

theorem countsBounded_run (calls : List (Int × Str)) :
    ∀ clients : Clients, CountsBounded clients → CountsBounded (run clients calls) := by
  induction calls with
  | nil => intro clients h; exact h
  | cons x rest ih =>
    intro clients h
    obtain ⟨now, c⟩ := x
    exact ih _ (countsBounded_allowRequest clients now c h)

/-- For C5: the state invariant. In every state reached from the empty map by a
sequence of `allowRequest` calls, for any clients and any clock readings (so in
particular non-decreasing ones), every entry has
`0 <= request_count <= MAX_REQUESTS_PER_MINUTE`. -/
theorem request_count_bounded (calls : List (Int × Str)) (k : Str) (info : ClientInfo)
    (h : run empty calls k = some info) :
    0 ≤ info.request_count ∧ info.request_count ≤ MAX_REQUESTS_PER_MINUTE :=
  countsBounded_run calls empty countsBounded_empty k info h

/-- After two calls for `a` and one for `b`, the entry of `a` has count 2, within
the bounds. -/
theorem request_count_bounded_witness :
    run empty [(61000000000, str "a"), (61000000001, str "b"), (61000000002, str "a")]
        (str "a") = some { request_count := 2, window_start := 61000000000 } ∧
      (0 : Int) ≤ 2 ∧ (2 : Int) ≤ MAX_REQUESTS_PER_MINUTE :=
  ⟨by decide,
    request_count_bounded
      [(61000000000, str "a"), (61000000001, str "b"), (61000000002, str "a")]
      (str "a") { request_count := 2, window_start := 61000000000 } (by decide)⟩

/-- For C3: a fresh client whose first call comes less than a minute after the
clock's epoch. The new entry keeps the epoch as its window start, so the window
ends one minute after the epoch: with 121 calls at 30 s and one at 61 s (all less
than a minute after the first call) the 121st is rejected and the 122nd is
admitted. -/
theorem calls_fresh_early_clock :
    (calls (str "x") empty (List.replicate 121 30000000000 ++ [61000000000])).1 =
      List.replicate 120 true ++ [false, true] := by
  decide

theorem callsWith_in_window (N : Nat) (c : Str) (t1 : Int) :
    ∀ (ts : List Int) (clients : Clients) (k : Nat),
      clients c = some { request_count := k, window_start := t1 } → k ≤ N →
      (∀ t ∈ ts, t < t1 + TICKS_PER_MINUTE) →
      (callsWith N c clients ts).1 =
        List.replicate (min ts.length (N - k)) true ++ List.replicate (ts.length - (N - k)) false := by
  intro ts
  induction ts with
  | nil => intro clients k _ _ _; simp [callsWith]
  | cons t ts ih =>
    intro clients k hk hkN hwin
    have hno : ¬ 1 ≤ elapsedMinutes t t1 := by
      rw [one_le_elapsedMinutes]
      have := hwin t (List.mem_cons_self _ _)
      omega
    have hwin1 : ∀ t ∈ ts, t < t1 + TICKS_PER_MINUTE :=
      fun x hx => hwin x (List.mem_cons_of_mem _ hx)
    by_cases hfull : N ≤ k
    · have hkeq : k = N := by omega
      subst hkeq
      have hstep : allowRequestWith (k : Int) clients t c =
          (false, store clients c { request_count := k, window_start := t1 }) := by
        simp [allowRequestWith, entry, hk, hno]
      simp only [callsWith, hstep]
      rw [ih _ k (store_same _ _ _) (le_refl _) hwin1]
      simp [List.replicate_succ]
    · have hstep : allowRequestWith (N : Int) clients t c =
          (true, store clients c { request_count := ((k + 1 : Nat) : Int), window_start := t1 }) := by
        have : ¬ (N : Int) ≤ (k : Int) := by omega
        simp [allowRequestWith, entry, hk, hno, this]
      simp only [callsWith, hstep]
      rw [ih _ (k + 1) (store_same _ _ _) (by omega) hwin1]
      have e1 : min (ts.length + 1) (N - k) = min ts.length (N - (k + 1)) + 1 := by omega
      have e2 : ts.length + 1 - (N - k) = ts.length - (N - (k + 1)) := by omega
      simp only [List.length_cons, e1, e2, List.replicate_succ, List.cons_append]

/-- The behaviour of a fresh client when the steady clock is at least one minute
past its epoch at the first call: with all later calls less than one minute after
the first, the first `N` calls are admitted and every later one is rejected. -/
theorem callsWith_fresh_client (N : Nat) (c : Str) (clients : Clients) (t1 : Int)
    (ts : List Int) (hfresh : clients c = none) (hclock : TICKS_PER_MINUTE ≤ t1)
    (hwin : ∀ t ∈ ts, t < t1 + TICKS_PER_MINUTE) :
    (callsWith N c clients (t1 :: ts)).1 =
      List.replicate (min (ts.length + 1) N) true ++
        List.replicate (ts.length + 1 - N) false := by
  have hreset : 1 ≤ elapsedMinutes t1 0 := by
    rw [one_le_elapsedMinutes]
    omega
  by_cases hN : N = 0
  · subst hN
    have hstep : allowRequestWith ((0 : Nat) : Int) clients t1 c =
        (false, store clients c { request_count := ((0 : Nat) : Int), window_start := t1 }) := by
      simp [allowRequestWith, entry, hfresh, hreset]
    simp only [callsWith, hstep]
    rw [callsWith_in_window 0 c t1 ts _ 0 (store_same _ _ _) (le_refl _) hwin]
    simp [List.replicate_succ]
  · have hstep : allowRequestWith (N : Int) clients t1 c =
        (true, store clients c { request_count := ((1 : Nat) : Int), window_start := t1 }) := by
      have : ¬ (N : Int) ≤ 0 := by omega
      simp [allowRequestWith, entry, hfresh, hreset, this]
    simp only [callsWith, hstep]
    rw [callsWith_in_window N c t1 ts _ 1 (store_same _ _ _) (by omega) hwin]
    have e1 : min (ts.length + 1) N = min ts.length (N - 1) + 1 := by omega
    have e2 : ts.length + 1 - N = ts.length - (N - 1) := by omega
    simp only [e1, e2, List.replicate_succ, List.cons_append]

/-- With a ceiling of 3 and a clock one minute past its epoch, calls 1 to 3 of a new
client are admitted and call 4 is rejected. -/
theorem callsWith_fresh_client_witness :
    (callsWith (3 : Nat) (str "x") empty [61000000000, 62000000000, 63000000000, 64000000000]).1 =
      [true, true, true, false] :=
  callsWith_fresh_client 3 (str "x") empty 61000000000 [62000000000, 63000000000, 64000000000]
    rfl (by decide) (by decide)

end RateLimiter

/-! ## Theorems: URLRewriter -/

namespace URLRewriter

open StdString

theorem matchScheme_some (scheme s : Str) (l : Nat) (h : matchScheme scheme s = some l) :
    ∃ run rest : Str, s = scheme ++ run ++ rest ∧ run ≠ [] ∧ (∀ c ∈ run, urlChar c = true) ∧
      l = scheme.length + run.length := by
  simp only [matchScheme] at h
  split_ifs at h with h1 h2
  · rw [List.isPrefixOf_iff_prefix] at h1
    obtain ⟨t, ht⟩ := h1
    have hd : s.drop scheme.length = t := by
      rw [← ht]
      simp
    simp only [hd] at h h2
    refine ⟨t.takeWhile urlChar, t.dropWhile urlChar, ?_, ?_, ?_, ?_⟩
    · rw [List.append_assoc, List.takeWhile_append_dropWhile, ht]
    · intro h0
      rw [h0] at h2
      simp at h2
    · intro c hc
      exact (List.mem_takeWhile_imp hc)
    · simpa using h.symm

theorem matchHere_some (s : Str) (l : Nat) (h : matchHere s = some l) :
    ∃ scheme run rest : Str, (scheme = str "http://" ∨ scheme = str "https://") ∧
      s = scheme ++ run ++ rest ∧ run ≠ [] ∧ (∀ c ∈ run, urlChar c = true) ∧
      l = scheme.length + run.length := by
  unfold matchHere at h
  split at h
  · next l1 h1 =>
    obtain ⟨run, rest, e, hne, hall, hl⟩ := matchScheme_some _ _ _ h1
    simp only [Option.some.injEq] at h
    subst h
    exact ⟨_, run, rest, Or.inr rfl, e, hne, hall, hl⟩
  · obtain ⟨run, rest, e, hne, hall, hl⟩ := matchScheme_some _ _ _ h
    exact ⟨_, run, rest, Or.inl rfl, e, hne, hall, hl⟩

theorem matchHere_bounds (s : Str) (l : Nat) (h : matchHere s = some l) :
    1 ≤ l ∧ l ≤ s.length := by
  obtain ⟨scheme, run, rest, _, e, hne, _, hl⟩ := matchHere_some s l h
  have : 1 ≤ run.length := List.length_pos.2 hne
  subst e
  simp only [List.length_append]
  omega

theorem specSubstitute_skip (proxy_base : Str) :
    ∀ (s : Str) (k : Nat), specSubstitute proxy_base s k = specSubstitute proxy_base (s.drop k) 0 := by
  intro s
  induction s with
  | nil => intro k; cases k <;> simp [specSubstitute]
  | cons c cs ih =>
    intro k
    cases k with
    | zero => simp
    | succ k => simp [specSubstitute, ih k]

theorem leftmostMatch_none (proxy_base : Str) :
    ∀ s : Str, leftmostMatch s = none → specSubstitute proxy_base s 0 = s := by
  intro s
  induction s with
  | nil => intro _; simp [specSubstitute]
  | cons c cs ih =>
    intro h
    unfold leftmostMatch at h
    split at h
    · simp at h
    · next hm =>
      split at h
      · simp at h
      · next hr =>
        simp [specSubstitute, hm, ih hr]

theorem leftmostMatch_some (proxy_base : Str) :
    ∀ (s : Str) (p l : Nat), leftmostMatch s = some (p, l) →
      1 ≤ l ∧ p + l ≤ s.length ∧ matchHere (s.drop p) = some l ∧
      specSubstitute proxy_base s 0 =
        s.take p ++ proxyUrl proxy_base ((s.drop p).take l) ++
          specSubstitute proxy_base (s.drop (p + l)) 0 := by
  intro s
  induction s with
  | nil => intro p l h; simp [leftmostMatch] at h
  | cons c cs ih =>
    intro p l h
    unfold leftmostMatch at h
    split at h
    · next l1 hm =>
      simp only [Option.some.injEq, Prod.mk.injEq] at h
      obtain ⟨hp, hl⟩ := h
      subst hp hl
      obtain ⟨h1, h2⟩ := matchHere_bounds _ _ hm
      refine ⟨h1, by simpa using h2, by simpa using hm, ?_⟩
      rw [specSubstitute, hm]
      simp only [List.take_zero, List.nil_append, List.drop_zero, Nat.zero_add]
      rw [specSubstitute_skip]
      obtain ⟨m, rfl⟩ : ∃ m, l1 = m + 1 := ⟨l1 - 1, by omega⟩
      simp
    · next hm =>
      split at h
      · next p1 l1 hr =>
        simp only [Option.some.injEq, Prod.mk.injEq] at h
        obtain ⟨hp, hl⟩ := h
        subst hp hl
        obtain ⟨h1, h2, h3, h4⟩ := ih p1 l1 hr
        refine ⟨h1, by simp only [List.length_cons]; omega, by simpa using h3, ?_⟩
        rw [specSubstitute, hm]
        simp only [h4]
        have e : p1 + 1 + l1 = (p1 + l1) + 1 := by omega
        simp [e]
      · simp at h

theorem applyReplacements_append (xs ys : List Replacement) :
    ∀ s : Str, applyReplacements (xs ++ ys) s =
      match applyReplacements xs s with
      | none => none
      | some s1 => applyReplacements ys s1 := by
  induction xs with
  | nil => intro s; simp [applyReplacements]
  | cons x xs ih =>
    intro s
    simp only [List.cons_append, applyReplacements]
    cases StdString.replace s x.pos x.len x.text with
    | none => rfl
    | some s1 => exact ih s1

theorem replace_match (result S : Str) (q l : Nat) (text : Str) (h : q + l ≤ result.length) :
    StdString.replace (result.take (q + l) ++ S) q l text = some (result.take q ++ text ++ S) := by
  have hlen : (result.take (q + l)).length = q + l := by
    rw [List.length_take]
    omega
  unfold StdString.replace
  rw [if_neg (by rw [List.length_append, hlen]; omega)]
  congr 2
  · congr 1
    rw [List.take_append_of_le_length (by omega), List.take_take]
    congr 1
    omega
  · rw [List.drop_append_of_le_length (by omega), List.drop_of_length_le (by omega)]
    rfl

theorem le_capacity_of_fits (capacity : Nat) (html : Str) (hfit : FitsEngine capacity html)
    (start p l : Nat) (h : leftmostMatch (html.drop start) = some (p, l)) : l ≤ capacity := by
  obtain ⟨_, _, hm, _⟩ := leftmostMatch_some [] _ p l h
  obtain ⟨scheme, run, rest, hs, e, hne, hall, hl⟩ := matchHere_some _ _ hm
  have hurl : IsAbsoluteUrl (scheme ++ run) := by
    refine ⟨run, ?_, hne, hall⟩
    rcases hs with h1 | h1
    · exact Or.inl (by rw [h1])
    · exact Or.inr (by rw [h1])
  have hsplit : html = html.take (start + p) ++ (scheme ++ run) ++ rest := by
    rw [List.drop_drop] at e
    rw [List.append_assoc, ← e, List.take_append_drop]
  have := hfit _ _ _ hsplit hurl
  rw [List.length_append] at this
  omega

theorem regexSearch_of_none (capacity : Nat) (s : Str) (h : leftmostMatch s = none) :
    regexSearch capacity s = some none := by
  simp only [regexSearch, h]

theorem regexSearch_of_le (capacity : Nat) (s : Str) (p l : Nat)
    (h : leftmostMatch s = some (p, l)) (hle : l ≤ capacity) :
    regexSearch capacity s = some (some (p, l)) := by
  simp only [regexSearch, h]
  rw [if_neg (by omega)]

theorem regexSearch_of_lt (capacity : Nat) (s : Str) (p l : Nat)
    (h : leftmostMatch s = some (p, l)) (hlt : capacity < l) :
    regexSearch capacity s = none := by
  simp only [regexSearch, h]
  rw [if_pos hlt]

theorem collectLoop_spec (capacity : Nat) (proxy_base result : Str)
    (hfit : FitsEngine capacity result) :
    ∀ (fuel start : Nat) (acc : List Replacement),
      start ≤ result.length → result.length - start < fuel →
      ∃ reps : List Replacement,
        collectLoop capacity proxy_base result fuel start acc = some (acc ++ reps) ∧
        applyReplacements reps.reverse result =
          some (result.take start ++ specSubstitute proxy_base (result.drop start) 0) := by
  intro fuel
  induction fuel with
  | zero => intro start acc _ h; omega
  | succ fuel ih =>
    intro start acc hs hf
    unfold collectLoop
    cases hr : leftmostMatch (result.drop start) with
    | none =>
      rw [regexSearch_of_none capacity _ hr]
      refine ⟨[], by simp, ?_⟩
      rw [leftmostMatch_none proxy_base _ hr]
      simp [applyReplacements]
    | some pl =>
      obtain ⟨p, l⟩ := pl
      rw [regexSearch_of_le capacity _ p l hr (le_capacity_of_fits capacity result hfit start p l hr)]
      obtain ⟨h1, h2, _, h4⟩ := leftmostMatch_some proxy_base _ p l hr
      rw [List.length_drop] at h2
      have hlen : (substr result (start + p) l).length = l := by
        simp only [substr, List.length_take, List.length_drop]
        omega
      obtain ⟨reps, hc, ha⟩ := ih (start + p + l)
        (acc ++ [{ pos := p + start, len := (substr result (start + p) l).length,
                   text := proxyUrl proxy_base (substr result (start + p) l) }])
        (by omega) (by omega)
      refine ⟨{ pos := p + start, len := (substr result (start + p) l).length,
                text := proxyUrl proxy_base (substr result (start + p) l) } :: reps, ?_, ?_⟩
      · simp only [hc]
        simp
      · rw [List.reverse_cons, applyReplacements_append, ha]
        simp only [applyReplacements, hlen]
        have e : start + p + l = (p + start) + l := by omega
        rw [e, replace_match result _ (p + start) l _ (by omega)]
        simp only [h4, substr, List.drop_drop, List.append_assoc]
        have e1 : result.take (p + start) = result.take start ++ (result.drop start).take p := by
          rw [Nat.add_comm p start, List.take_add]
        have e2 : start + p = p + start := by omega
        have e3 : start + (p + l) = p + start + l := by omega
        simp [e1, e2, e3]

theorem findAux_ge (needle : Str) :
    ∀ (s : Str) (idx q : Nat), findAux needle s idx = some q → idx ≤ q := by
  intro s
  induction s with
  | nil =>
    intro idx q h
    unfold findAux at h
    split_ifs at h
    simp only [Option.some.injEq] at h
    omega
  | cons c cs ih =>
    intro idx q h
    unfold findAux at h
    split_ifs at h
    · simp only [Option.some.injEq] at h
      omega
    · have := ih _ _ h
      omega

theorem findAux_head_none (tag : Str) :
    ∀ (s : Str) (idx : Nat), findAux (str "<head>") s idx = none → specInjectBase tag s = s := by
  intro s
  induction s with
  | nil => intro idx _; rfl
  | cons c cs ih =>
    intro idx h
    unfold findAux at h
    split_ifs at h with hp
    rw [specInjectBase, if_neg hp, ih _ h]

theorem findAux_head_some (tag : Str) :
    ∀ (s : Str) (idx q : Nat), findAux (str "<head>") s idx = some q →
      q - idx + 6 ≤ s.length ∧
      specInjectBase tag s = s.take (q - idx + 6) ++ tag ++ s.drop (q - idx + 6) := by
  intro s
  induction s with
  | nil =>
    intro idx q h
    unfold findAux at h
    split_ifs at h with hp
    simp [str, List.isPrefixOf] at hp
  | cons c cs ih =>
    intro idx q h
    have hge := findAux_ge _ _ _ _ h
    unfold findAux at h
    split_ifs at h with hp
    · simp only [Option.some.injEq] at h
      subst h
      obtain ⟨t, ht⟩ := List.isPrefixOf_iff_prefix.1 hp
      have hl : (str "<head>").length = 6 := by decide
      have h6 : 6 ≤ (c :: cs).length := by
        rw [← ht, List.length_append, hl]
        omega
      simp only [Nat.sub_self, Nat.zero_add]
      refine ⟨h6, ?_⟩
      rw [specInjectBase, if_pos hp]
      congr 2
      rw [← ht, List.take_append_of_le_length (by omega), List.take_of_length_le (by omega)]
    · have hge1 := findAux_ge _ _ _ _ h
      obtain ⟨h1, h2⟩ := ih _ _ h
      have e : q - idx + 6 = (q - (idx + 1) + 6) + 1 := by omega
      rw [e]
      refine ⟨by simp only [List.length_cons]; omega, ?_⟩
      rw [specInjectBase, if_neg hp, h2]
      simp

theorem inject_eq_spec (tag s : Str) :
    (match find s (str "<head>") 0 with
      | none => some s
      | some head_pos => StdString.insert s (head_pos + 6) tag) = some (specInjectBase tag s) := by
  have hf : find s (str "<head>") 0 = findAux (str "<head>") s 0 := by
    simp [find]
  rw [hf]
  cases h : findAux (str "<head>") s 0 with
  | none => simp [findAux_head_none tag s 0 h]
  | some q =>
    obtain ⟨h1, h2⟩ := findAux_head_some tag s 0 q h
    simp only [Nat.sub_zero] at h1 h2
    simp only [StdString.insert]
    rw [if_neg (by omega), h2]

theorem rewrite_eq_inject (capacity : Nat) (proxy_base html base_url : Str)
    (hfit : FitsEngine capacity html) :
    rewrite capacity proxy_base html base_url =
      some (specInjectBase (baseTag proxy_base base_url) (specSubstitute proxy_base html 0)) := by
  obtain ⟨reps, hc, ha⟩ := collectLoop_spec capacity proxy_base html hfit (html.length + 1) 0 []
    (Nat.zero_le _) (by omega)
  simp only [List.nil_append, List.take_zero, List.drop_zero] at hc ha
  unfold rewrite
  simp only [hc, ha]
  exact inject_eq_spec _ _

theorem fitsEngine_of_length_le (capacity : Nat) (html : Str) (h : html.length ≤ capacity) :
    FitsEngine capacity html := by
  intro pre m post e _
  have := congrArg List.length e
  simp only [List.length_append] at this
  omega

/-- Within the capacity of the regex engine the rewrite is a single left-to-right
substitution: when no substring of `html` that matches the pattern is longer than
the engine can follow, `URLRewriter::rewrite` returns the string obtained by
scanning `html` in document order, replacing each successive non-overlapping match
by `proxyBase + "/proxy/" + encode(match)`, copying all other bytes, and then
inserting the base tag immediately after the first `<head>`, if there is one. -/
theorem rewrite_eq_specRewrite_of_fits (capacity : Nat) (proxy_base html base_url : Str)
    (hfit : FitsEngine capacity html) :
    rewrite capacity proxy_base html base_url =
      some (specRewrite proxy_base html base_url) :=
  rewrite_eq_inject capacity proxy_base html base_url hfit

/-- The example of the specification: the anchor is rewritten and the base tag is
inserted right after `<head>`. -/
theorem rewrite_eq_specRewrite_of_fits_witness :
    rewrite 4096 (str "http://localhost:8080")
        (str "<head></head><a href=\"https://example.com/x\">l</a>")
        (str "https://example.com/") =
      some (str ("<head><base href=\"http://localhost:8080/proxy/aHR0cHM6Ly9leGFtcGxlLmNvbS8/\">" ++
        "</head><a href=\"http://localhost:8080/proxy/aHR0cHM6Ly9leGFtcGxlLmNvbS94\">l</a>")) :=
  (rewrite_eq_specRewrite_of_fits 4096 (str "http://localhost:8080")
    (str "<head></head><a href=\"https://example.com/x\">l</a>")
    (str "https://example.com/")
    (fitsEngine_of_length_le 4096 _ (by decide))).trans (by decide)

theorem matchHere_of_url (scheme body post : Str)
    (hs : scheme = str "http://" ∨ scheme = str "https://") (hne : body ≠ [])
    (hall : ∀ c ∈ body, urlChar c = true) : matchHere (scheme ++ body ++ post) ≠ none := by
  obtain ⟨b, bs, rfl⟩ := List.exists_cons_of_ne_nil hne
  have hb : urlChar b = true := hall b (List.mem_cons_self _ _)
  have key : matchScheme scheme (scheme ++ (b :: bs) ++ post) ≠ none := by
    have hp : scheme.isPrefixOf (scheme ++ b :: (bs ++ post)) = true := by
      rw [List.isPrefixOf_iff_prefix]
      exact List.prefix_append _ _
    simp only [matchScheme, List.append_assoc, List.drop_left, List.cons_append,
      List.takeWhile_cons, hb, List.length_cons]
    rw [if_pos hp]
    simp only [if_true, List.length_cons]
    rw [if_pos (Nat.le_add_left 1 _)]
    simp
  unfold matchHere
  rcases hs with h | h
  · subst h
    split
    · simp
    · exact key
  · subst h
    split
    · simp
    · next hnone => exact absurd hnone key

theorem leftmostMatch_complete (s : Str) (h : HasUrlMatch s) : leftmostMatch s ≠ none := by
  obtain ⟨pre, m, post, e, body, hm, hne, hall⟩ := h
  subst e
  induction pre with
  | nil =>
    have hmatch : matchHere (m ++ post) ≠ none := by
      rcases hm with h | h
      · subst h
        exact matchHere_of_url _ body post (Or.inl rfl) hne hall
      · subst h
        exact matchHere_of_url _ body post (Or.inr rfl) hne hall
    have hcons : ∃ c cs, [] ++ m ++ post = c :: cs := by
      rcases hm with h | h <;> subst h <;> exact ⟨_, _, rfl⟩
    obtain ⟨c, cs, e⟩ := hcons
    rw [e]
    simp only [List.nil_append] at e
    rw [e] at hmatch
    unfold leftmostMatch
    split
    · simp
    · next hnone => exact absurd hnone hmatch
  | cons c pre ih =>
    simp only [List.cons_append]
    unfold leftmostMatch
    split
    · simp
    · split
      · simp
      · next hnone =>
        simp only [List.append_assoc] at ih hnone
        exact absurd hnone ih

theorem leftmostMatch_sound (s : Str) (p l : Nat) (h : leftmostMatch s = some (p, l)) :
    HasUrlMatch s := by
  obtain ⟨_, _, hm, _⟩ := leftmostMatch_some [] s p l h
  obtain ⟨scheme, run, rest, hs, e, hne, hall, _⟩ := matchHere_some _ _ hm
  refine ⟨s.take p, scheme ++ run, rest, ?_, run, ?_, hne, hall⟩
  · rw [List.append_assoc, ← e, List.take_append_drop]
  · rcases hs with h | h
    · exact Or.inl (by rw [h])
    · exact Or.inr (by rw [h])

theorem leftmostMatch_eq_none_iff (s : Str) : leftmostMatch s = none ↔ ¬ HasUrlMatch s := by
  constructor
  · intro h hm
    exact leftmostMatch_complete s hm h
  · intro h
    cases hr : leftmostMatch s with
    | none => rfl
    | some pl => exact absurd (leftmostMatch_sound s pl.1 pl.2 hr) h

theorem specInjectBase_no_head (tag : Str) :
    ∀ s : Str, ¬ (str "<head>") <:+: s → specInjectBase tag s = s := by
  intro s
  induction s with
  | nil => intro _; rfl
  | cons c cs ih =>
    intro h
    have hp : ¬ (str "<head>").isPrefixOf (c :: cs) = true := by
      intro hp
      exact h (List.isPrefixOf_iff_prefix.1 hp).isInfix
    have hcs : ¬ (str "<head>") <:+: cs := by
      intro hi
      exact h (hi.trans (List.suffix_cons c cs).isInfix)
    rw [specInjectBase, if_neg hp, ih hcs]

theorem specInjectBase_first (tag post : Str) :
    ∀ pre : Str,
      (∀ pre1 post1 : Str, pre ++ str "<head>" ++ post = pre1 ++ str "<head>" ++ post1 →
        pre.length ≤ pre1.length) →
      specInjectBase tag (pre ++ str "<head>" ++ post) = pre ++ str "<head>" ++ tag ++ post := by
  intro pre
  induction pre with
  | nil =>
    intro _
    have hp : (str "<head>").isPrefixOf ([] ++ str "<head>" ++ post) = true := by
      rw [List.isPrefixOf_iff_prefix, List.nil_append]
      exact List.prefix_append _ _
    have e : [] ++ str "<head>" ++ post = ch '<' :: (str "head>" ++ post) := rfl
    rw [e] at hp ⊢
    rw [specInjectBase, if_pos hp]
    rfl
  | cons c pre ih =>
    intro hfirst
    have hp : ¬ (str "<head>").isPrefixOf (c :: pre ++ str "<head>" ++ post) = true := by
      intro hp
      obtain ⟨t, ht⟩ := List.isPrefixOf_iff_prefix.1 hp
      have := hfirst [] t (by simpa using ht.symm)
      simp at this
    have hfirst1 : ∀ pre1 post1 : Str,
        pre ++ str "<head>" ++ post = pre1 ++ str "<head>" ++ post1 →
        pre.length ≤ pre1.length := by
      intro pre1 post1 e
      have := hfirst (c :: pre1) post1 (by simp only [List.cons_append, e])
      simpa using this
    simp only [List.cons_append] at hp ⊢
    rw [specInjectBase, if_neg hp, ih hfirst1]

theorem findAux_first (needle : Str) :
    ∀ (s : Str) (idx q : Nat), findAux needle s idx = some q →
      ∀ pre1 post1 : Str, s = pre1 ++ needle ++ post1 → q ≤ idx + pre1.length := by
  intro s
  induction s with
  | nil =>
    intro idx q h pre1 post1 e
    unfold findAux at h
    split_ifs at h
    simp only [Option.some.injEq] at h
    omega
  | cons c cs ih =>
    intro idx q h pre1 post1 e
    unfold findAux at h
    split_ifs at h with hp
    · simp only [Option.some.injEq] at h
      omega
    · cases pre1 with
      | nil =>
        exfalso
        apply hp
        rw [List.isPrefixOf_iff_prefix, e, List.nil_append]
        exact List.prefix_append _ _
      | cons d pre1 =>
        simp only [List.cons_append, List.cons.injEq] at e
        have := ih _ _ h pre1 post1 e.2
        simp only [List.length_cons]
        omega

/-- For C7: rewrite of URL-free HTML. When `html` has no substring matching the
absolute-URL pattern, `rewrite` returns, whatever the capacity of the regex engine,
`html` unchanged if `html` does not contain `<head>`, and otherwise `html` with
only the base tag inserted immediately after the first `<head>`. -/
theorem rewrite_url_free (capacity : Nat) (proxy_base html base_url : Str)
    (h : ¬ HasUrlMatch html) :
    (¬ (str "<head>") <:+: html →
      rewrite capacity proxy_base html base_url = some html) ∧
    (∀ pre post : Str, html = pre ++ str "<head>" ++ post →
      (∀ pre1 post1 : Str, html = pre1 ++ str "<head>" ++ post1 → pre.length ≤ pre1.length) →
      rewrite capacity proxy_base html base_url =
        some (pre ++ str "<head>" ++ baseTag proxy_base base_url ++ post)) := by
  have hs : specSubstitute proxy_base html 0 = html :=
    leftmostMatch_none proxy_base html ((leftmostMatch_eq_none_iff html).2 h)
  have hfit : FitsEngine capacity html := fun pre m post e hm => absurd ⟨pre, m, post, e, hm⟩ h
  rw [rewrite_eq_inject capacity proxy_base html base_url hfit, hs]
  constructor
  · intro hno
    rw [specInjectBase_no_head _ _ hno]
  · intro pre post e hfirst
    subst e
    rw [specInjectBase_first _ _ _ hfirst]

/-- A page without URL: the base tag, and nothing else, is inserted after the first
of its two `<head>`. -/
theorem rewrite_url_free_witness :
    rewrite 0 (str "http://localhost:8080") (str "<html><head><p>http://</p><head>")
        (str "https://example.com/") =
      some (str ("<html><head><base href=\"http://localhost:8080/proxy/aHR0cHM6Ly9leGFtcGxlLmNvbS8/\">" ++
        "<p>http://</p><head>")) :=
  (rewrite_url_free 0 (str "http://localhost:8080") (str "<html><head><p>http://</p><head>")
    (str "https://example.com/")
    ((leftmostMatch_eq_none_iff _).1 (by decide))).2 (str "<html>") (str "<p>http://</p><head>")
    (by decide)
    (fun pre1 post1 e => by
      have h6 := findAux_first (str "<head>") (str "<html><head><p>http://</p><head>") 0 6
        (by decide) pre1 post1 e
      rw [Nat.zero_add] at h6
      exact h6) |>.trans (by decide)

end URLRewriter

/-! ## Theorems: HTTPServer -/

namespace HTTPServer

open StdString

theorem findAux_slash_none :
    ∀ (t : Str) (idx : Nat), (∀ c ∈ t, c ≠ ch '/') → findAux (str "/") t idx = none := by
  intro t
  induction t with
  | nil => intro idx _; rfl
  | cons c cs ih =>
    intro idx h
    have hc : c ≠ ch '/' := h c (List.mem_cons_self _ _)
    have hp : ¬ (str "/").isPrefixOf (c :: cs) = true := by
      intro hp
      obtain ⟨t, ht⟩ := List.isPrefixOf_iff_prefix.1 hp
      have e : str "/" = [ch '/'] := rfl
      rw [e] at ht
      simp only [List.singleton_append, List.cons.injEq] at ht
      exact hc ht.1.symm
    rw [findAux, if_neg hp]
    exact ih _ (fun x hx => h x (List.mem_cons_of_mem _ hx))

theorem findAux_slash_some (rest : Str) :
    ∀ (t : Str) (idx : Nat), (∀ c ∈ t, c ≠ ch '/') →
      findAux (str "/") (t ++ ch '/' :: rest) idx = some (idx + t.length) := by
  intro t
  induction t with
  | nil =>
    intro idx _
    have hp : (str "/").isPrefixOf (ch '/' :: rest) = true := by
      rw [List.isPrefixOf_iff_prefix]
      exact ⟨rest, rfl⟩
    simp only [List.nil_append, List.length_nil, Nat.add_zero]
    rw [findAux, if_pos hp]
  | cons c cs ih =>
    intro idx h
    have hc : c ≠ ch '/' := h c (List.mem_cons_self _ _)
    have hp : ¬ (str "/").isPrefixOf (c :: (cs ++ ch '/' :: rest)) = true := by
      intro hp
      obtain ⟨t, ht⟩ := List.isPrefixOf_iff_prefix.1 hp
      have e : str "/" = [ch '/'] := rfl
      rw [e] at ht
      simp only [List.singleton_append, List.cons.injEq] at ht
      exact hc ht.1.symm
    simp only [List.cons_append, List.length_cons]
    rw [findAux, if_neg hp, ih _ (fun x hx => h x (List.mem_cons_of_mem _ hx))]
    congr 1
    omega

theorem token_extract (u suffix : Str) (hs : suffix = [] ∨ ∃ rest, suffix = ch '/' :: rest) :
    (match find (Base64.encode u ++ suffix) (str "/") 0 with
      | none => Base64.encode u ++ suffix
      | some slash_pos => substr (Base64.encode u ++ suffix) 0 slash_pos) = Base64.encode u := by
  have hno : ∀ c ∈ Base64.encode u, c ≠ ch '/' := by
    intro c hc
    obtain ⟨k, hk, rfl⟩ := Base64.mem_encode u c hc
    exact (Base64.charAt_tokenSymbol k hk).2.1
  have hf : ∀ s : Str, find s (str "/") 0 = findAux (str "/") s 0 := by
    intro s
    simp [find]
  rw [hf]
  rcases hs with h | ⟨rest, h⟩
  · subst h
    rw [List.append_nil, findAux_slash_none _ _ hno]
  · subst h
    rw [findAux_slash_some _ _ _ hno]
    simp [substr]

theorem proxyRoute_fetched (port : Nat) (env : Env) (clients : RateLimiter.Clients)
    (u suffix : Str) (hs : suffix = [] ∨ ∃ rest, suffix = ch '/' :: rest)
    (hu : (str "http://").isPrefixOf u = true ∨ (str "https://").isPrefixOf u = true) :
    (proxyRoute port env clients (str "/proxy/" ++ Base64.encode u ++ suffix)).fetched = [u] := by
  have hd : (str "/proxy/" ++ Base64.encode u ++ suffix).drop 7 = Base64.encode u ++ suffix := by
    rw [List.append_assoc]
    exact List.drop_left' rfl
  have hcheck : ¬ (¬ (str "http://").isPrefixOf u = true ∧ ¬ (str "https://").isPrefixOf u = true) := by
    tauto
  simp only [proxyRoute, hd, token_extract u suffix hs, Base64.decode, Base64.decodeLoop_encode]
  rw [if_neg hcheck]
  split_ifs
  · split <;> rfl
  · rfl
  · rfl

/-- For C2: transparent-proxy dispatch. For every URL `u` that starts with
`http://` or `https://`, an admitted request whose path is `/proxy/` followed by
`encode(u)`, optionally followed by `/` and any further text, makes `handleClient`
call the fetch collaborator exactly once, with exactly `u`. -/
theorem proxy_dispatch (port : Nat) (env : Env) (clients : RateLimiter.Clients)
    (request u suffix : Str)
    (hpath : (parseRequestLine request).2 = str "/proxy/" ++ Base64.encode u ++ suffix)
    (hs : suffix = [] ∨ ∃ rest, suffix = ch '/' :: rest)
    (hallowed : (RateLimiter.allowRequest clients env.now (str "client_ip")).1 = true)
    (hu : (str "http://").isPrefixOf u = true ∨ (str "https://").isPrefixOf u = true) :
    (handleClient port env clients request).fetched = [u] := by
  have hne : ¬ request.length = 0 := by
    intro h0
    have : request = [] := List.length_eq_zero.1 h0
    subst this
    have hnil : (parseRequestLine []).2 = [] := by decide
    rw [hnil, List.append_assoc] at hpath
    exact absurd hpath (by simp [str, String.toList])
  have hnf : ¬ ((parseRequestLine request).1 = str "POST" ∧
      (parseRequestLine request).2 = str "/fetch") := by
    rintro ⟨_, h2⟩
    rw [hpath, List.append_assoc] at h2
    have h3 := congrArg (fun l => l.take 2) h2
    simp [str, String.toList, ch] at h3
  have hpre : (str "/proxy/").isPrefixOf (parseRequestLine request).2 = true := by
    rw [hpath, List.isPrefixOf_iff_prefix, List.append_assoc]
    exact List.prefix_append _ _
  have hadm : ¬ (RateLimiter.allowRequest clients env.now (str "client_ip")).1 = false := by
    rw [hallowed]
    simp
  simp only [handleClient]
  rw [if_neg hne, if_neg hadm, if_neg hnf, if_pos hpre, hpath]
  exact proxyRoute_fetched port env _ u suffix hs hu

/-- The dispatch example of the specification, with a further path segment: the
request `GET /proxy/<encode("https://example.com/a")>/x` is admitted and fetches
exactly `https://example.com/a`. -/
theorem proxy_dispatch_witness :
    (parseRequestLine (str "GET /proxy/aHR0cHM6Ly9leGFtcGxlLmNvbS9h/x HTTP/1.1\r\n\r\n")).2 =
        str "/proxy/" ++ Base64.encode (str "https://example.com/a") ++ str "/x" ∧
      (RateLimiter.allowRequest RateLimiter.empty 61000000000 (str "client_ip")).1 = true ∧
      (handleClient 8080
        { now := 61000000000,
          fetch := fun _ => { content := [], content_type := str "text/html",
                              error := str "Failed to open URL", status_code := 0,
                              success := false },
          uninit := 0, regex_capacity := 4096 }
        RateLimiter.empty
        (str "GET /proxy/aHR0cHM6Ly9leGFtcGxlLmNvbS9h/x HTTP/1.1\r\n\r\n")).fetched =
      [str "https://example.com/a"] :=
  ⟨by decide, by decide,
    proxy_dispatch 8080 _ RateLimiter.empty _ (str "https://example.com/a") (str "/x")
      (by decide) (Or.inr ⟨str "x", rfl⟩) (by decide) (Or.inr (by decide))⟩

theorem sendResponse_headers (status : Int) (contentType body : Str) :
    str "Access-Control-Allow-Origin: *\r\n" <:+: sendResponse status contentType body ∧
      str "Connection: close\r\n" <:+: sendResponse status contentType body := by
  unfold sendResponse
  constructor
  · refine ⟨str "HTTP/1.1 " ++ statusStr status ++ str "\r\n" ++ str "Content-Type: " ++
      contentType ++ str "\r\n" ++ str "Content-Length: " ++ decimal body.length ++ str "\r\n",
      str "Connection: close\r\n\r\n" ++ body, ?_⟩
    simp only [List.append_assoc]
  · refine ⟨str "HTTP/1.1 " ++ statusStr status ++ str "\r\n" ++ str "Content-Type: " ++
      contentType ++ str "\r\n" ++ str "Content-Length: " ++ decimal body.length ++ str "\r\n" ++
      str "Access-Control-Allow-Origin: *\r\n", str "\r\n" ++ body, ?_⟩
    have e : str "Connection: close\r\n\r\n" = str "Connection: close\r\n" ++ str "\r\n" := by
      decide
    rw [e]
    simp only [List.append_assoc]

theorem handleClient_sent_cases (port : Nat) (env : Env) (clients : RateLimiter.Clients)
    (request r : Str) (hr : r ∈ (handleClient port env clients request).sent) :
    (∃ (status : Int) (contentType body : Str), r = sendResponse status contentType body) ∨
      (str "/navigate?url=").isPrefixOf (parseRequestLine request).2 = true ∧
        ∃ encoded : Str,
          r = str "HTTP/1.1 302 Found\r\nLocation: /proxy/" ++ encoded ++ str "\r\n\r\n" := by
  simp only [handleClient] at hr
  split_ifs at hr with h0 h1 h2 h3 h4
  · simp at hr
  · simp only [List.mem_singleton] at hr
    exact Or.inl ⟨_, _, _, hr⟩
  · simp only [fetchRoute] at hr
    split at hr
    · simp only [List.mem_singleton] at hr
      exact Or.inl ⟨_, _, _, hr⟩
    · split at hr
      · simp only [List.mem_singleton] at hr
        exact Or.inl ⟨_, _, _, hr⟩
      · split_ifs at hr
        · simp only [List.mem_singleton] at hr
          exact Or.inl ⟨_, _, _, hr⟩
        · simp only [List.mem_singleton] at hr
          exact Or.inl ⟨_, _, _, hr⟩
  · simp only [proxyRoute] at hr
    split_ifs at hr
    · simp only [List.mem_singleton] at hr
      exact Or.inl ⟨_, _, _, hr⟩
    · split at hr
      · simp at hr
      · simp only [List.mem_singleton] at hr
        exact Or.inl ⟨_, _, _, hr⟩
    · simp only [List.mem_singleton] at hr
      exact Or.inl ⟨_, _, _, hr⟩
    · simp only [List.mem_singleton] at hr
      exact Or.inl ⟨_, _, _, hr⟩
  · simp only [navigateRoute, List.mem_singleton] at hr
    exact Or.inr ⟨h4, _, hr⟩
  · simp only [List.mem_singleton] at hr
    exact Or.inl ⟨_, _, _, hr⟩

/-- For C10: the response of the `/navigate` route. The admitted request
`GET /navigate?url=https://example.com` is answered with the hand-written redirect
only, which contains neither `Access-Control-Allow-Origin: *` nor
`Connection: close`; the other routes answer through `sendResponse`, which writes
both. -/
theorem navigate_response_lacks_headers :
    (handleClient 8080
        { now := 61000000000,
          fetch := fun _ => { content := [], content_type := str "text/html",
                              error := str "Failed to open URL", status_code := 0,
                              success := false },
          uninit := 0, regex_capacity := 4096 }
        RateLimiter.empty
        (str "GET /navigate?url=https://example.com HTTP/1.1\r\n\r\n")).sent =
      [str "HTTP/1.1 302 Found\r\nLocation: /proxy/aHR0cHM6Ly9leGFtcGxlLmNvbQ\r\n\r\n"] ∧
    ¬ str "Access-Control-Allow-Origin: *" <:+:
      str "HTTP/1.1 302 Found\r\nLocation: /proxy/aHR0cHM6Ly9leGFtcGxlLmNvbQ\r\n\r\n" ∧
    ¬ str "Connection: close" <:+:
      str "HTTP/1.1 302 Found\r\nLocation: /proxy/aHR0cHM6Ly9leGFtcGxlLmNvbQ\r\n\r\n" := by
  decide

end HTTPServer

/-! ## Theorems: the `/navigate` route -/

namespace HTTPServer

open StdString

theorem percentDecode_literal (value : Int) (c : Byte) (e : Str)
    (h1 : c ≠ ch '%') (h2 : c ≠ ch '+') :
    percentDecode value (c :: e) = c :: percentDecode value e := by
  match e with
  | [] => simp [percentDecode, h2]
  | [_] => simp [percentDecode, h2]
  | _ :: _ :: _ => simp [percentDecode, h1, h2]

theorem percentDecode_plus (value : Int) (e : Str) :
    percentDecode value (ch '+' :: e) = ch ' ' :: percentDecode value e := by
  have hne : ch '+' ≠ ch '%' := by decide
  match e with
  | [] => simp [percentDecode]
  | [_] => simp [percentDecode]
  | _ :: _ :: _ => simp [percentDecode, hne]

theorem percentDecode_percent (value : Int) (c h l : Byte) (a b : Nat) (e : Str)
    (ha : hexDigit h = some a) (hb : hexDigit l = some b) (hc : c.val = 16 * a + b) :
    percentDecode value (ch '%' :: h :: l :: e) =
      c :: percentDecode (sscanfHex value h l) e := by
  have hv : toChar (sscanfHex value h l) = c := by
    apply Fin.ext
    have hlt := c.isLt
    simp only [toChar, sscanfHex, ha, hb]
    omega
  simp [percentDecode, hv]

theorem percentDecode_encoding (u e : Str) (h : IsEncoding u e) :
    ∀ value : Int, percentDecode value e = u := by
  induction h with
  | done => intro value; rfl
  | literal c u e h1 h2 _ _ ih =>
    intro value
    rw [percentDecode_literal value c e h1 h2, ih]
  | percent c h l a b u e ha hb hc _ ih =>
    intro value
    rw [percentDecode_percent value c h l a b e ha hb hc, ih]
  | plus u e _ ih =>
    intro value
    rw [percentDecode_plus, ih]

theorem navigateRoute_encoding (env : Env) (clients : RateLimiter.Clients) (u e : Str)
    (h : IsEncoding u e) :
    (navigateRoute env clients (str "/navigate?url=" ++ e)).sent = [redirectTo u] ∧
      (navigateRoute env clients (str "/navigate?url=" ++ e)).fetched = [] := by
  have hd : (str "/navigate?url=" ++ e).drop 14 = e := List.drop_left' rfl
  simp only [navigateRoute, hd, percentDecode_encoding u e h env.uninit, redirectTo, and_self]

/-- For C11: the navigate redirect. For every target `u` and every percent/plus
encoding `e` of `u`, an admitted request whose path is `/navigate?url=` followed by
`e` is answered with exactly one response, the status line `302 Found` with the
header `Location: /proxy/` followed by `encode(u)`, and nothing is fetched. -/
theorem navigate_redirect (port : Nat) (env : Env) (clients : RateLimiter.Clients)
    (request u e : Str) (henc : IsEncoding u e)
    (hpath : (parseRequestLine request).2 = str "/navigate?url=" ++ e)
    (hallowed : (RateLimiter.allowRequest clients env.now (str "client_ip")).1 = true) :
    (handleClient port env clients request).sent =
        [str "HTTP/1.1 302 Found\r\nLocation: /proxy/" ++ Base64.encode u ++ str "\r\n\r\n"] ∧
      (handleClient port env clients request).fetched = [] := by
  have hne : ¬ request.length = 0 := by
    intro h0
    have : request = [] := List.length_eq_zero.1 h0
    subst this
    have hnil : (parseRequestLine []).2 = [] := by decide
    rw [hnil] at hpath
    exact absurd hpath (by simp [str, String.toList])
  have hnf : ¬ ((parseRequestLine request).1 = str "POST" ∧
      (parseRequestLine request).2 = str "/fetch") := by
    rintro ⟨_, h2⟩
    rw [hpath] at h2
    have h3 := congrArg (fun l => l.take 2) h2
    simp [str, String.toList, ch] at h3
  have hnp : ¬ (str "/proxy/").isPrefixOf (parseRequestLine request).2 = true := by
    rw [hpath, List.isPrefixOf_iff_prefix]
    rintro ⟨t, ht⟩
    have h3 := congrArg (fun l => l.take 2) ht
    simp [str, String.toList, ch] at h3
  have hpre : (str "/navigate?url=").isPrefixOf (parseRequestLine request).2 = true := by
    rw [hpath, List.isPrefixOf_iff_prefix]
    exact List.prefix_append _ _
  have hadm : ¬ (RateLimiter.allowRequest clients env.now (str "client_ip")).1 = false := by
    rw [hallowed]
    simp
  simp only [handleClient]
  rw [if_neg hne, if_neg hadm, if_neg hnf, if_neg hnp, if_pos hpre, hpath]
  exact navigateRoute_encoding env _ u e henc

/-- The request `GET /navigate?url=a+b%2F` is redirected to the token of `a b/`. -/
theorem navigate_redirect_witness :
    IsEncoding (str "a b/") (str "a+b%2F") ∧
      (parseRequestLine (str "GET /navigate?url=a+b%2F HTTP/1.1\r\n\r\n")).2 =
        str "/navigate?url=" ++ str "a+b%2F" ∧
      (handleClient 8080
        { now := 61000000000,
          fetch := fun _ => { content := [], content_type := str "text/html",
                              error := str "Failed to open URL", status_code := 0,
                              success := false },
          uninit := 0, regex_capacity := 4096 }
        RateLimiter.empty (str "GET /navigate?url=a+b%2F HTTP/1.1\r\n\r\n")).sent =
        [str "HTTP/1.1 302 Found\r\nLocation: /proxy/" ++ Base64.encode (str "a b/") ++
          str "\r\n\r\n"] ∧
      (handleClient 8080
        { now := 61000000000,
          fetch := fun _ => { content := [], content_type := str "text/html",
                              error := str "Failed to open URL", status_code := 0,
                              success := false },
          uninit := 0, regex_capacity := 4096 }
        RateLimiter.empty (str "GET /navigate?url=a+b%2F HTTP/1.1\r\n\r\n")).fetched = [] :=
  have henc : IsEncoding (str "a b/") (str "a+b%2F") :=
    IsEncoding.literal (ch 'a') _ _ (by decide) (by decide) (by decide)
      (IsEncoding.plus _ _
        (IsEncoding.literal (ch 'b') _ _ (by decide) (by decide) (by decide)
          (IsEncoding.percent (ch '/') (ch '2') (ch 'F') 2 15 [] [] (by decide) (by decide)
            (by decide) IsEncoding.done)))
  ⟨henc, by decide,
    navigate_redirect 8080 _ RateLimiter.empty _ (str "a b/") (str "a+b%2F") henc (by decide)
      (by decide)⟩

/-! ## Theorems: the `/proxy/` scheme check -/

theorem proxyRoute_eq (port : Nat) (env : Env) (clients : RateLimiter.Clients) (path : Str) :
    proxyRoute port env clients path =
      if ¬ (str "http://").isPrefixOf (Base64.decode (extractToken path)) ∧
          ¬ (str "https://").isPrefixOf (Base64.decode (extractToken path)) then
        { sent := [sendResponse 400 (str "text/plain")
            (str "Invalid URL - must start with http:// or https://")],
          fetched := [], clients := clients }
      else
        if (env.fetch (Base64.decode (extractToken path))).success then
          if (find (env.fetch (Base64.decode (extractToken path))).content_type
              (str "text/html") 0).isSome then
            match URLRewriter.rewrite env.regex_capacity (proxyBase port)
                (env.fetch (Base64.decode (extractToken path))).content
                (Base64.decode (extractToken path)) with
            | none => { sent := [], fetched := [Base64.decode (extractToken path)],
                        clients := clients }
            | some content =>
              { sent := [sendResponse 200
                  (env.fetch (Base64.decode (extractToken path))).content_type content],
                fetched := [Base64.decode (extractToken path)], clients := clients }
          else
            { sent := [sendResponse 200
                (env.fetch (Base64.decode (extractToken path))).content_type
                (env.fetch (Base64.decode (extractToken path))).content],
              fetched := [Base64.decode (extractToken path)], clients := clients }
        else
          { sent := [sendResponse 502 (str "text/plain")
              (str "Failed to fetch: " ++ (env.fetch (Base64.decode (extractToken path))).error)],
            fetched := [Base64.decode (extractToken path)], clients := clients } := rfl

theorem handleClient_proxy (port : Nat) (env : Env) (clients : RateLimiter.Clients)
    (request : Str)
    (hpre : (str "/proxy/").isPrefixOf (parseRequestLine request).2 = true)
    (hallowed : (RateLimiter.allowRequest clients env.now (str "client_ip")).1 = true) :
    handleClient port env clients request =
      proxyRoute port env (RateLimiter.allowRequest clients env.now (str "client_ip")).2
        (parseRequestLine request).2 := by
  have hne : ¬ request.length = 0 := by
    intro h0
    have : request = [] := List.length_eq_zero.1 h0
    subst this
    revert hpre
    decide
  have hnf : ¬ ((parseRequestLine request).1 = str "POST" ∧
      (parseRequestLine request).2 = str "/fetch") := by
    rintro ⟨_, h2⟩
    rw [h2] at hpre
    revert hpre
    decide
  have hadm : ¬ (RateLimiter.allowRequest clients env.now (str "client_ip")).1 = false := by
    rw [hallowed]
    simp
  simp only [handleClient]
  rw [if_neg hne, if_neg hadm, if_neg hnf, if_pos hpre]

/-- For C12: the scheme check of the proxy route. For every admitted request whose
path starts with `/proxy/`: when the extracted token decodes to a string that
starts with neither `http://` nor `https://`, the single response is the status
400 message and nothing is fetched; and in every case each URL that is fetched
starts with `http://` or `https://`. -/
theorem proxy_scheme_check (port : Nat) (env : Env) (clients : RateLimiter.Clients)
    (request : Str)
    (hpre : (str "/proxy/").isPrefixOf (parseRequestLine request).2 = true)
    (hallowed : (RateLimiter.allowRequest clients env.now (str "client_ip")).1 = true) :
    (¬ (str "http://").isPrefixOf (Base64.decode (extractToken (parseRequestLine request).2)) = true →
      ¬ (str "https://").isPrefixOf (Base64.decode (extractToken (parseRequestLine request).2)) = true →
      (handleClient port env clients request).sent =
          [sendResponse 400 (str "text/plain")
            (str "Invalid URL - must start with http:// or https://")] ∧
        (handleClient port env clients request).fetched = []) ∧
    (∀ url ∈ (handleClient port env clients request).fetched,
      (str "http://").isPrefixOf url = true ∨ (str "https://").isPrefixOf url = true) := by
  rw [handleClient_proxy port env clients request hpre hallowed, proxyRoute_eq]
  constructor
  · intro h1 h2
    rw [if_pos ⟨h1, h2⟩]
    exact ⟨rfl, rfl⟩
  · intro url hurl
    split_ifs at hurl with hbad hs hh
    · simp at hurl
    · have hf : url = Base64.decode (extractToken (parseRequestLine request).2) := by
        split at hurl <;> simpa using hurl
      rw [hf]
      tauto
    · have hf : url = Base64.decode (extractToken (parseRequestLine request).2) := by
        simpa using hurl
      rw [hf]
      tauto
    · have hf : url = Base64.decode (extractToken (parseRequestLine request).2) := by
        simpa using hurl
      rw [hf]
      tauto

/-- The token `ZnRwOi8veA` decodes to `ftp://x`: the request is answered with the
status 400 message and nothing is fetched. -/
theorem proxy_scheme_check_witness :
    Base64.decode (extractToken
        (parseRequestLine (str "GET /proxy/ZnRwOi8veA HTTP/1.1\r\n\r\n")).2) = str "ftp://x" ∧
      (handleClient 8080
        { now := 61000000000,
          fetch := fun _ => { content := [], content_type := str "text/html",
                              error := str "Failed to open URL", status_code := 0,
                              success := false },
          uninit := 0, regex_capacity := 4096 }
        RateLimiter.empty (str "GET /proxy/ZnRwOi8veA HTTP/1.1\r\n\r\n")).sent =
        [sendResponse 400 (str "text/plain")
          (str "Invalid URL - must start with http:// or https://")] ∧
      (handleClient 8080
        { now := 61000000000,
          fetch := fun _ => { content := [], content_type := str "text/html",
                              error := str "Failed to open URL", status_code := 0,
                              success := false },
          uninit := 0, regex_capacity := 4096 }
        RateLimiter.empty (str "GET /proxy/ZnRwOi8veA HTTP/1.1\r\n\r\n")).fetched = [] :=
  ⟨by decide,
    (proxy_scheme_check 8080 _ RateLimiter.empty
      (str "GET /proxy/ZnRwOi8veA HTTP/1.1\r\n\r\n") (by decide) (by decide)).1
      (by decide) (by decide)⟩

/-! ## Theorems: the admission gate -/

theorem findAux_none_of_not_infix (needle : Str) :
    ∀ (s : Str) (idx : Nat), ¬ needle <:+: s → findAux needle s idx = none := by
  intro s
  induction s with
  | nil =>
    intro idx h
    have hp : ¬ needle.isPrefixOf [] = true := by
      intro hp
      exact h (List.isPrefixOf_iff_prefix.1 hp).isInfix
    rw [findAux, if_neg hp]
  | cons c cs ih =>
    intro idx h
    have hp : ¬ needle.isPrefixOf (c :: cs) = true := by
      intro hp
      exact h (List.isPrefixOf_iff_prefix.1 hp).isInfix
    have hcs : ¬ needle <:+: cs := by
      intro hi
      exact h (hi.trans (List.suffix_cons c cs).isInfix)
    rw [findAux, if_neg hp, ih _ hcs]

theorem findAux_eq_of_first (needle post : Str) :
    ∀ (pre : Str) (idx : Nat),
      (∀ pre1 post1 : Str, pre ++ needle ++ post = pre1 ++ needle ++ post1 →
        pre.length ≤ pre1.length) →
      findAux needle (pre ++ needle ++ post) idx = some (idx + pre.length) := by
  intro pre
  induction pre with
  | nil =>
    intro idx _
    have hp : needle.isPrefixOf ([] ++ needle ++ post) = true := by
      rw [List.isPrefixOf_iff_prefix, List.nil_append]
      exact List.prefix_append _ _
    cases hs : [] ++ needle ++ post with
    | nil =>
      rw [hs] at hp
      rw [findAux, if_pos hp]
      rfl
    | cons c cs =>
      rw [hs] at hp
      rw [findAux, if_pos hp]
      rfl
  | cons c pre ih =>
    intro idx hfirst
    have hp : ¬ needle.isPrefixOf (c :: (pre ++ needle ++ post)) = true := by
      intro hp
      obtain ⟨t, ht⟩ := List.isPrefixOf_iff_prefix.1 hp
      have := hfirst [] t (by simpa using ht.symm)
      simp at this
    have hfirst1 : ∀ pre1 post1 : Str,
        pre ++ needle ++ post = pre1 ++ needle ++ post1 → pre.length ≤ pre1.length := by
      intro pre1 post1 e
      have := hfirst (c :: pre1) post1 (by simp only [List.cons_append, e])
      simpa using this
    simp only [List.cons_append, List.length_cons]
    rw [findAux, if_neg hp, ih _ hfirst1]
    congr 1
    omega

theorem find_zero (s needle : Str) : find s needle 0 = findAux needle s 0 := by
  simp [find]

theorem handleClient_fetch (port : Nat) (env : Env) (clients : RateLimiter.Clients)
    (request : Str)
    (hmethod : (parseRequestLine request).1 = str "POST")
    (hpath : (parseRequestLine request).2 = str "/fetch")
    (hallowed : (RateLimiter.allowRequest clients env.now (str "client_ip")).1 = true) :
    handleClient port env clients request =
      fetchRoute env (RateLimiter.allowRequest clients env.now (str "client_ip")).2 request := by
  have hne : ¬ request.length = 0 := by
    intro h0
    have : request = [] := List.length_eq_zero.1 h0
    subst this
    revert hpath
    decide
  have hadm : ¬ (RateLimiter.allowRequest clients env.now (str "client_ip")).1 = false := by
    rw [hallowed]
    simp
  simp only [handleClient]
  rw [if_neg hne, if_neg hadm, if_pos ⟨hmethod, hpath⟩]

theorem fetchRoute_no_body (env : Env) (clients : RateLimiter.Clients) (request : Str)
    (h : ¬ str "\r\n\r\n" <:+: request) :
    (fetchRoute env clients request).sent =
        [sendResponse 400 (str "application/json")
          (str "\x7b\"error\":\"No request body\"\x7d")] ∧
      (fetchRoute env clients request).fetched = [] := by
  simp only [fetchRoute, find_zero, findAux_none_of_not_infix _ _ 0 h, and_self]

theorem fetchRoute_no_url (env : Env) (clients : RateLimiter.Clients)
    (request head body : Str) (hreq : request = head ++ str "\r\n\r\n" ++ body)
    (hfirst : ∀ head1 body1 : Str, request = head1 ++ str "\r\n\r\n" ++ body1 →
      head.length ≤ head1.length)
    (hno : ¬ str "\"url\":\"" <:+: body) :
    (fetchRoute env clients request).sent =
        [sendResponse 400 (str "application/json")
          (str "\x7b\"error\":\"Missing url field\"\x7d")] ∧
      (fetchRoute env clients request).fetched = [] := by
  subst hreq
  have hf := findAux_eq_of_first (str "\r\n\r\n") body head 0 hfirst
  have hd : (head ++ str "\r\n\r\n" ++ body).drop (0 + head.length + 4) = body := by
    rw [List.append_assoc, Nat.zero_add]
    have : head.length + 4 = (head ++ str "\r\n\r\n").length := by
      rw [List.length_append]
      rfl
    rw [this, ← List.append_assoc]
    exact List.drop_left _ _
  simp only [fetchRoute, find_zero, hf, hd, findAux_none_of_not_infix _ _ 0 hno, and_self]

/-- For C14: missing url field. For every admitted `POST /fetch` request whose body
(the text after the first blank line) does not contain the text `"url":"`, the
single response is status 400 with content type `application/json` and body
`{"error":"Missing url field"}`, and nothing is fetched. -/
theorem missing_url_field (port : Nat) (env : Env) (clients : RateLimiter.Clients)
    (request head body : Str)
    (hmethod : (parseRequestLine request).1 = str "POST")
    (hpath : (parseRequestLine request).2 = str "/fetch")
    (hallowed : (RateLimiter.allowRequest clients env.now (str "client_ip")).1 = true)
    (hreq : request = head ++ str "\r\n\r\n" ++ body)
    (hfirst : ∀ head1 body1 : Str, request = head1 ++ str "\r\n\r\n" ++ body1 →
      head.length ≤ head1.length)
    (hno : ¬ str "\"url\":\"" <:+: body) :
    (handleClient port env clients request).sent =
        [sendResponse 400 (str "application/json")
          (str "\x7b\"error\":\"Missing url field\"\x7d")] ∧
      (handleClient port env clients request).fetched = [] := by
  rw [handleClient_fetch port env clients request hmethod hpath hallowed]
  exact fetchRoute_no_url env _ request head body hreq hfirst hno

/-- The example of the specification: `POST /fetch` with body `{}`. -/
theorem missing_url_field_witness :
    (handleClient 8080
        { now := 61000000000,
          fetch := fun _ => { content := [], content_type := str "text/html",
                              error := str "Failed to open URL", status_code := 0,
                              success := false },
          uninit := 0, regex_capacity := 4096 }
        RateLimiter.empty (str "POST /fetch HTTP/1.1\r\n\r\n\x7b\x7d")).sent =
        [sendResponse 400 (str "application/json")
          (str "\x7b\"error\":\"Missing url field\"\x7d")] ∧
      (handleClient 8080
        { now := 61000000000,
          fetch := fun _ => { content := [], content_type := str "text/html",
                              error := str "Failed to open URL", status_code := 0,
                              success := false },
          uninit := 0, regex_capacity := 4096 }
        RateLimiter.empty (str "POST /fetch HTTP/1.1\r\n\r\n\x7b\x7d")).fetched = [] :=
  missing_url_field 8080 _ RateLimiter.empty (str "POST /fetch HTTP/1.1\r\n\r\n\x7b\x7d")
    (str "POST /fetch HTTP/1.1") (str "\x7b\x7d") (by decide) (by decide) (by decide) (by decide)
    (fun head1 body1 e => by
      have h := URLRewriter.findAux_first (str "\r\n\r\n")
        (str "POST /fetch HTTP/1.1\r\n\r\n\x7b\x7d") 0 20 (by decide) head1 body1 e
      rw [Nat.zero_add] at h
      exact h)
    (by decide)

/-- For C15 (as stated, refuted): a body that opens the url string and never closes
it is not answered with 400. The rest of the body is handed to the fetch
collaborator and the response reports the outcome of that fetch (here 502); the
same holds for a body whose only defect is a missing closing brace. -/
theorem fetch_unterminated_url :
    (handleClient 8080
        { now := 61000000000,
          fetch := fun _ => { content := [], content_type := str "text/html",
                              error := str "Failed to open URL", status_code := 0,
                              success := false },
          uninit := 0, regex_capacity := 4096 }
        RateLimiter.empty
        (str "POST /fetch HTTP/1.1\r\n\r\n\x7b\"url\":\"http://example.com")).fetched =
        [str "http://example.com"] ∧
      (handleClient 8080
        { now := 61000000000,
          fetch := fun _ => { content := [], content_type := str "text/html",
                              error := str "Failed to open URL", status_code := 0,
                              success := false },
          uninit := 0, regex_capacity := 4096 }
        RateLimiter.empty
        (str "POST /fetch HTTP/1.1\r\n\r\n\x7b\"url\":\"http://example.com")).sent =
        [sendResponse 502 (str "application/json")
          (str "\x7b\"success\":false,\"error\":\"Failed to open URL\"\x7d")] ∧
      (handleClient 8080
        { now := 61000000000,
          fetch := fun _ => { content := [], content_type := str "text/html",
                              error := str "Failed to open URL", status_code := 0,
                              success := false },
          uninit := 0, regex_capacity := 4096 }
        RateLimiter.empty
        (str "POST /fetch HTTP/1.1\r\n\r\n\x7b\"url\":\"http://example.com\"")).fetched =
        [str "http://example.com"] := by
  decide

/-- For C15 (amended): the client errors of `POST /fetch`. For every admitted
`POST /fetch` request: when the request has no blank line, the single response is
status 400, `application/json`, `{"error":"No request body"}`; when the body after
the first blank line does not contain the text `"url":"`, it is status 400,
`application/json`, `{"error":"Missing url field"}`; in both cases nothing is
fetched. -/
theorem fetch_client_errors (port : Nat) (env : Env) (clients : RateLimiter.Clients)
    (request : Str)
    (hmethod : (parseRequestLine request).1 = str "POST")
    (hpath : (parseRequestLine request).2 = str "/fetch")
    (hallowed : (RateLimiter.allowRequest clients env.now (str "client_ip")).1 = true) :
    (¬ str "\r\n\r\n" <:+: request →
      (handleClient port env clients request).sent =
          [sendResponse 400 (str "application/json")
            (str "\x7b\"error\":\"No request body\"\x7d")] ∧
        (handleClient port env clients request).fetched = []) ∧
    (∀ head body : Str, request = head ++ str "\r\n\r\n" ++ body →
      (∀ head1 body1 : Str, request = head1 ++ str "\r\n\r\n" ++ body1 →
        head.length ≤ head1.length) →
      ¬ str "\"url\":\"" <:+: body →
      (handleClient port env clients request).sent =
          [sendResponse 400 (str "application/json")
            (str "\x7b\"error\":\"Missing url field\"\x7d")] ∧
        (handleClient port env clients request).fetched = []) := by
  rw [handleClient_fetch port env clients request hmethod hpath hallowed]
  exact ⟨fun h => fetchRoute_no_body env _ request h,
    fun head body hreq hfirst hno => fetchRoute_no_url env _ request head body hreq hfirst hno⟩

/-- A `POST /fetch` request that ends after its first header line has no body: it
is answered with the status 400 envelope and nothing is fetched. -/
theorem fetch_client_errors_witness :
    (handleClient 8080
        { now := 61000000000,
          fetch := fun _ => { content := [], content_type := str "text/html",
                              error := str "Failed to open URL", status_code := 0,
                              success := false },
          uninit := 0, regex_capacity := 4096 }
        RateLimiter.empty (str "POST /fetch HTTP/1.1\r\n")).sent =
        [sendResponse 400 (str "application/json")
          (str "\x7b\"error\":\"No request body\"\x7d")] ∧
      (handleClient 8080
        { now := 61000000000,
          fetch := fun _ => { content := [], content_type := str "text/html",
                              error := str "Failed to open URL", status_code := 0,
                              success := false },
          uninit := 0, regex_capacity := 4096 }
        RateLimiter.empty (str "POST /fetch HTTP/1.1\r\n")).fetched = [] :=
  (fetch_client_errors 8080 _ RateLimiter.empty (str "POST /fetch HTTP/1.1\r\n")
    (by decide) (by decide) (by decide)).1 (by decide)

/-! ## Theorems: `escapeJSON` -/

/-- For C16: a control character without a two-character escape. `escapeJSON`
copies the byte 0x01 (and likewise 0x0B) unchanged, so its result contains a raw
control character. -/
theorem escapeJSON_raw_control :
    escapeJSON [1] = [1] ∧ escapeJSON (str "a\x0bb") = str "a\x0bb" ∧
      (∃ b ∈ escapeJSON [1], b.val < 32) := by
  decide

theorem escapeByte_cases (c : Byte) :
    (c.val < 32 ∧ c.val ≠ 8 ∧ c.val ≠ 9 ∧ c.val ≠ 10 ∧ c.val ≠ 12 ∧ c.val ≠ 13 ∧
        escapeByte c = [c]) ∨
      (32 ≤ c.val ∧ c ≠ ch '"' ∧ c ≠ ch '\\' ∧ escapeByte c = [c]) ∨
      (∃ e : Byte, 32 ≤ e.val ∧ unescapeChar e = some c ∧ escapeByte c = [ch '\\', e]) := by
  revert c
  decide

theorem escapeJSON_control (c : Str) :
    ∀ b ∈ escapeJSON c, b.val < 32 →
      b ∈ c ∧ b.val ≠ 8 ∧ b.val ≠ 9 ∧ b.val ≠ 10 ∧ b.val ≠ 12 ∧ b.val ≠ 13 := by
  induction c with
  | nil => intro b hb; simp [escapeJSON] at hb
  | cons x xs ih =>
    intro b hb hlt
    simp only [escapeJSON, List.mem_append] at hb
    rcases hb with hb | hb
    · rcases escapeByte_cases x with ⟨_, h8, h9, h10, h12, h13, he⟩ | ⟨h32, _, _, he⟩ | ⟨e, h32, _, he⟩
      · rw [he, List.mem_singleton] at hb
        subst hb
        exact ⟨List.mem_cons_self _ _, h8, h9, h10, h12, h13⟩
      · rw [he, List.mem_singleton] at hb
        subst hb
        omega
      · rw [he] at hb
        simp only [List.mem_cons, List.mem_singleton, List.not_mem_nil, or_false] at hb
        rcases hb with hb | hb
        · subst hb
          exact absurd hlt (by decide)
        · subst hb
          omega
    · obtain ⟨hm, hrest⟩ := ih b hb hlt
      exact ⟨List.mem_cons_of_mem _ hm, hrest⟩

theorem unescapeJSON_plain (c : Byte) (rest : Str) (h1 : c ≠ ch '\\') (h2 : c ≠ ch '"') :
    unescapeJSON (c :: rest) =
      match unescapeJSON rest with
      | some v => some (c :: v)
      | none => none := by
  cases rest with
  | nil => simp [unescapeJSON, h1, h2]
  | cons e rest => simp [unescapeJSON, h1, h2]

theorem unescapeJSON_escapeJSON (c : Str) : unescapeJSON (escapeJSON c) = some c := by
  induction c with
  | nil => rfl
  | cons x xs ih =>
    rw [escapeJSON]
    rcases escapeByte_cases x with ⟨hlt, _, _, _, _, _, he⟩ | ⟨_, h1, h2, he⟩ | ⟨e, _, hu, he⟩
    · have h1 : x ≠ ch '"' := by
        intro h
        rw [h] at hlt
        revert hlt
        decide
      have h2 : x ≠ ch '\\' := by
        intro h
        rw [h] at hlt
        revert hlt
        decide
      rw [he, List.singleton_append, unescapeJSON_plain x _ h2 h1, ih]
    · rw [he, List.singleton_append, unescapeJSON_plain x _ h2 h1, ih]
    · rw [he]
      simp [unescapeJSON, hu, ih]

end HTTPServer

/-! ## Theorems: the fetch loop -/

namespace HTTPFetcher

theorem readLoop_spec (result : FetchResult) :
    ∀ (chunks : List Str) (response : Str) (total : Nat),
      (∀ c ∈ chunks, c ≠ []) → total ≤ MAX_RESPONSE_SIZE →
      (MAX_RESPONSE_SIZE < total + chunks.flatten.length →
        readLoop result chunks response total =
          { result with error := str "Response too large" }) ∧
      (total + chunks.flatten.length ≤ MAX_RESPONSE_SIZE →
        readLoop result chunks response total =
          { result with content := response ++ chunks.flatten, status_code := 200,
                        success := true }) := by
  intro chunks
  induction chunks with
  | nil =>
    intro response total _ htot
    constructor
    · intro h
      simp at h
      omega
    · intro _
      simp [readLoop]
  | cons chunk rest ih =>
    intro response total hne htot
    have hc : ¬ chunk.length = 0 := by
      intro h0
      exact hne chunk (List.mem_cons_self _ _) (List.length_eq_zero.1 h0)
    have hrest : ∀ c ∈ rest, c ≠ [] := fun c hc => hne c (List.mem_cons_of_mem _ hc)
    simp only [List.flatten_cons, List.length_append]
    rw [readLoop, if_neg hc]
    by_cases hbig : MAX_RESPONSE_SIZE < total + chunk.length
    · rw [if_pos hbig]
      constructor
      · intro _
        rfl
      · intro h
        omega
    · rw [if_neg hbig]
      obtain ⟨h1, h2⟩ := ih (response ++ chunk) (total + chunk.length) hrest (by omega)
      constructor
      · intro h
        exact h1 (by omega)
      · intro h
        rw [h2 (by omega), List.append_assoc]

/-- For C17: oversized response. When both handles are obtained and the body
arrives as the non-empty chunks returned by the successive reads: if the
cumulative size of the chunks exceeds `MAX_RESPONSE_SIZE`, the result has
`success = false`, `error = "Response too large"` and an empty content; if the
total size is at most `MAX_RESPONSE_SIZE`, the result has `success = true` and its
content is the concatenation of all chunks. -/
theorem fetch_size_bound (origin : Origin) (hopened : origin.opened = true)
    (hconnected : origin.connected = true) (hchunks : ∀ c ∈ origin.chunks, c ≠ []) :
    (MAX_RESPONSE_SIZE < origin.chunks.flatten.length →
      (fetch origin).success = false ∧ (fetch origin).error = str "Response too large" ∧
        (fetch origin).content = []) ∧
    (origin.chunks.flatten.length ≤ MAX_RESPONSE_SIZE →
      (fetch origin).success = true ∧ (fetch origin).content = origin.chunks.flatten) := by
  have hfetch : ∃ result1 : FetchResult, result1.success = false ∧ result1.content = [] ∧
      fetch origin = readLoop result1 origin.chunks [] 0 := by
    simp only [fetch, hopened, hconnected]
    cases origin.contentType with
    | none =>
      exact ⟨{ content := [], content_type := str "text/html", error := [], status_code := 0,
               success := false }, rfl, rfl, by simp⟩
    | some t =>
      exact ⟨{ content := [], content_type := t, error := [], status_code := 0,
               success := false }, rfl, rfl, by simp⟩
  obtain ⟨result1, hs, hcontent, hf⟩ := hfetch
  obtain ⟨h1, h2⟩ := readLoop_spec result1 origin.chunks [] 0 hchunks (Nat.zero_le _)
  rw [hf]
  constructor
  · intro h
    rw [h1 (by omega)]
    exact ⟨hs, rfl, hcontent⟩
  · intro h
    rw [h2 (by omega)]
    exact ⟨rfl, by simp⟩

theorem length_flatten_replicate (n m : Nat) (x : Byte) :
    (List.replicate n (List.replicate m x)).flatten.length = n * m := by
  induction n with
  | zero => simp
  | succ n ih =>
    rw [List.replicate_succ, List.flatten_cons, List.length_append, ih, List.length_replicate]
    rw [Nat.succ_mul]
    omega

theorem replicate_ne_nil (m : Nat) (x : Byte) (c : Str) (n : Nat)
    (hc : c ∈ List.replicate n (List.replicate (m + 1) x)) : c ≠ [] := by
  rw [List.eq_of_mem_replicate hc, List.replicate_succ]
  exact List.cons_ne_nil _ _

/-- A body of 6401 chunks of 8192 bytes (more than 50 MiB) gives the error result
without content; a body of the two chunks `ab` and `c` gives the content `abc`. -/
theorem fetch_size_bound_witness :
    ((fetch { opened := true, connected := true, contentType := none,
              chunks := List.replicate 6401 (List.replicate 8192 0) }).success = false ∧
      (fetch { opened := true, connected := true, contentType := none,
               chunks := List.replicate 6401 (List.replicate 8192 0) }).error =
        str "Response too large" ∧
      (fetch { opened := true, connected := true, contentType := none,
               chunks := List.replicate 6401 (List.replicate 8192 0) }).content = []) ∧
    ((fetch { opened := true, connected := true, contentType := none,
              chunks := [str "ab", str "c"] }).success = true ∧
      (fetch { opened := true, connected := true, contentType := none,
               chunks := [str "ab", str "c"] }).content = [str "ab", str "c"].flatten) :=
  ⟨(fetch_size_bound { opened := true, connected := true, contentType := none,
                       chunks := List.replicate 6401 (List.replicate 8192 0) } rfl rfl
      (fun c hc => replicate_ne_nil 8191 0 c 6401 hc)).1
      (by
        show MAX_RESPONSE_SIZE < (List.replicate 6401 (List.replicate 8192 0)).flatten.length
        rw [length_flatten_replicate]
        decide),
    (fetch_size_bound { opened := true, connected := true, contentType := none,
                        chunks := [str "ab", str "c"] } rfl rfl (by decide)).2 (by decide)⟩

end HTTPFetcher

/-! ## Theorems: decoding stops at an invalid symbol -/

namespace Base64

theorem tAt_eq_neg_one_iff (x : Byte) : tAt x = -1 ↔ x ∉ base64_chars := by
  revert x
  decide

theorem decodeLoop_stop (c : Byte) (t : Str) (hc : tAt c = -1) :
    ∀ (s : Str) (val valb : Int) (ret : Str), (∀ x ∈ s, tAt x ≠ -1) →
      decodeLoop (s ++ c :: t) val valb ret = decodeLoop s val valb ret := by
  intro s
  induction s with
  | nil =>
    intro val valb ret _
    simp [decodeLoop, hc]
  | cons x xs ih =>
    intro val valb ret hs
    have hx : tAt x ≠ -1 := hs x (List.mem_cons_self _ _)
    have hxs : ∀ y ∈ xs, tAt y ≠ -1 := fun y hy => hs y (List.mem_cons_of_mem _ hy)
    simp only [List.cons_append, decodeLoop, if_neg hx]
    split_ifs
    · exact ih _ _ _ hxs
    · exact ih _ _ _ hxs

/-- For C18: decoding stops at the first invalid symbol. For every string `s` of
alphabet symbols, every byte `c` outside the 64-symbol alphabet and every `t`,
`decode(s ++ [c] ++ t) = decode(s)`; in particular `decode(encode(u) ++ [c] ++ t)`
is `u` for every `u`. `decode` returns for every input: its table has an entry
for each of the 256 byte values. -/
theorem decode_stops_at_invalid (s t : Str) (c : Byte) (hs : ∀ x ∈ s, x ∈ base64_chars)
    (hc : c ∉ base64_chars) :
    decode (s ++ [c] ++ t) = decode s ∧ (∀ u : Str, decode (encode u ++ [c] ++ t) = u) ∧
      T.length = 256 := by
  have hc1 : tAt c = -1 := (tAt_eq_neg_one_iff c).2 hc
  refine ⟨?_, ?_, by decide⟩
  · rw [List.append_assoc, List.singleton_append]
    exact decodeLoop_stop c t hc1 s 0 (-8) [] (fun x hx h => (tAt_eq_neg_one_iff x).1 h (hs x hx))
  · intro u
    rw [List.append_assoc, List.singleton_append]
    have hu : ∀ x ∈ encode u, tAt x ≠ -1 := by
      intro x hx
      obtain ⟨k, hk, rfl⟩ := mem_encode u x hx
      rw [tAt_charAt k hk]
      omega
    exact (decodeLoop_stop c t hc1 (encode u) 0 (-8) [] hu).trans (decodeLoop_encode u)

/-- The token of `ab` followed by `/` and further text decodes to `ab`. -/
theorem decode_stops_at_invalid_witness :
    decode (str "YWI" ++ [ch '/'] ++ str "style.css") = decode (str "YWI") ∧
      decode (encode (str "ab") ++ [ch '/'] ++ str "style.css") = str "ab" ∧ T.length = 256 :=
  ⟨(decode_stops_at_invalid (str "YWI") (str "style.css") (ch '/') (by decide) (by decide)).1,
    (decode_stops_at_invalid (str "YWI") (str "style.css") (ch '/') (by decide)
      (by decide)).2.1 (str "ab"),
    (decode_stops_at_invalid (str "YWI") (str "style.css") (ch '/') (by decide)
      (by decide)).2.2⟩

end Base64

/-! ## Theorems: isolation of clients in the rate limiter -/

namespace RateLimiter

theorem allowRequest_other (clients : Clients) (now : Int) (a b : Str) (hab : a ≠ b) :
    (allowRequest clients now a).2 b = clients b := by
  have hba : b ≠ a := fun h => hab h.symm
  simp only [allowRequest, allowRequestWith]
  split_ifs <;> simp [store, hba]

theorem allowRequest_congr (clients1 clients2 : Clients) (now : Int) (b : Str)
    (h : clients1 b = clients2 b) :
    (allowRequest clients1 now b).1 = (allowRequest clients2 now b).1 ∧
      (allowRequest clients1 now b).2 b = (allowRequest clients2 now b).2 b := by
  simp only [allowRequest, allowRequestWith, entry, h]
  split_ifs <;> simp [store]

/-- For C20: per-client isolation. For every state of the map, every clock reading
and all distinct client identities `a` and `b`, `allowRequest(a)` leaves the entry
of `b` (count and window start) unchanged, so a later `allowRequest(b)`, at any
time, returns the same flag and leaves the same entry for `b` whether or not the
call for `a` was made. -/
theorem allowRequest_isolation (clients : Clients) (now : Int) (a b : Str) (hab : a ≠ b) :
    (allowRequest clients now a).2 b = clients b ∧
      ∀ later : Int,
        (allowRequest (allowRequest clients now a).2 later b).1 =
            (allowRequest clients later b).1 ∧
          (allowRequest (allowRequest clients now a).2 later b).2 b =
            (allowRequest clients later b).2 b :=
  ⟨allowRequest_other clients now a b hab,
    fun later => allowRequest_congr _ _ later b (allowRequest_other clients now a b hab)⟩

/-- With `b` at the ceiling, a call for `a` changes neither the entry of `b` nor the
rejection of its next call. -/
theorem allowRequest_isolation_witness :
    (allowRequest (store empty (str "b") { request_count := 120, window_start := 7 })
        8 (str "a")).2 (str "b") =
      store empty (str "b") { request_count := 120, window_start := 7 } (str "b") ∧
    (allowRequest
        (allowRequest (store empty (str "b") { request_count := 120, window_start := 7 })
          8 (str "a")).2 9 (str "b")).1 =
      (allowRequest (store empty (str "b") { request_count := 120, window_start := 7 })
        9 (str "b")).1 ∧
    (allowRequest
        (allowRequest (store empty (str "b") { request_count := 120, window_start := 7 })
          8 (str "a")).2 9 (str "b")).2 (str "b") =
      (allowRequest (store empty (str "b") { request_count := 120, window_start := 7 })
        9 (str "b")).2 (str "b") :=
  ⟨(allowRequest_isolation (store empty (str "b") { request_count := 120, window_start := 7 })
      8 (str "a") (str "b") (by decide)).1,
    (allowRequest_isolation (store empty (str "b") { request_count := 120, window_start := 7 })
      8 (str "a") (str "b") (by decide)).2 9⟩

end RateLimiter

/-! ## Theorems: the replacement list of `rewrite` -/

namespace URLRewriter

open StdString

theorem matchHere_len (s : Str) (l : Nat) (h : matchHere s = some l) : 8 ≤ l := by
  obtain ⟨scheme, run, rest, hs, _, hne, _, hl⟩ := matchHere_some s l h
  have h1 : 1 ≤ run.length := List.length_pos.2 hne
  have h7 : 7 ≤ scheme.length := by
    rcases hs with h | h <;> subst h <;> decide
  omega

theorem collectLoop_good (capacity : Nat) (proxy_base html : Str)
    (hfit : FitsEngine capacity html) :
    ∀ (fuel start : Nat) (acc : List Replacement),
      start ≤ html.length → html.length - start < fuel →
      ∃ reps : List Replacement,
        collectLoop capacity proxy_base html fuel start acc = some (acc ++ reps) ∧
        GoodFrom proxy_base html start reps := by
  intro fuel
  induction fuel with
  | zero => intro start acc _ h; omega
  | succ fuel ih =>
    intro start acc hs hf
    unfold collectLoop
    cases hr : leftmostMatch (html.drop start) with
    | none =>
      rw [regexSearch_of_none capacity _ hr]
      exact ⟨[], by simp, trivial⟩
    | some pl =>
      obtain ⟨p, l⟩ := pl
      rw [regexSearch_of_le capacity _ p l hr (le_capacity_of_fits capacity html hfit start p l hr)]
      obtain ⟨h1, h2, h3, _⟩ := leftmostMatch_some proxy_base _ p l hr
      rw [List.length_drop] at h2
      rw [List.drop_drop] at h3
      have hlen : (substr html (start + p) l).length = l := by
        simp only [substr, List.length_take, List.length_drop]
        omega
      obtain ⟨reps, hc, hg⟩ := ih (start + p + l)
        (acc ++ [{ pos := p + start, len := (substr html (start + p) l).length,
                   text := proxyUrl proxy_base (substr html (start + p) l) }])
        (by omega) (by omega)
      refine ⟨{ pos := p + start, len := (substr html (start + p) l).length,
                text := proxyUrl proxy_base (substr html (start + p) l) } :: reps, ?_, ?_⟩
      · simp only [hc]
        simp
      · simp only [GoodFrom, hlen]
        have e : start + p = p + start := by omega
        refine ⟨by omega, by omega, ?_, ?_, ?_⟩
        · rw [← e]
          exact h3
        · rw [← e]
        · have e2 : p + start + l = start + p + l := by omega
          rw [e2]
          exact hg

theorem goodFrom_mono (proxy_base html : Str) (reps : List Replacement) (s1 s2 : Nat)
    (h : GoodFrom proxy_base html s2 reps) (hle : s1 ≤ s2) : GoodFrom proxy_base html s1 reps := by
  cases reps with
  | nil => trivial
  | cons r rs =>
    obtain ⟨h1, h2, h3, h4, h5⟩ := h
    exact ⟨by omega, h2, h3, h4, h5⟩

theorem goodFrom_mem (proxy_base html : Str) :
    ∀ (reps : List Replacement) (start : Nat), GoodFrom proxy_base html start reps →
      ∀ r ∈ reps, start ≤ r.pos ∧ 8 ≤ r.len ∧ r.pos + r.len ≤ html.length := by
  intro reps
  induction reps with
  | nil => intro start _ r hr; simp at hr
  | cons x xs ih =>
    intro start h r hr
    obtain ⟨h1, h2, h3, _, h5⟩ := h
    rcases List.mem_cons.1 hr with e | hm
    · subst e
      exact ⟨h1, matchHere_len _ _ h3, h2⟩
    · obtain ⟨g1, g2, g3⟩ := ih _ h5 r hm
      exact ⟨by omega, g2, g3⟩

theorem goodFrom_pairwise (proxy_base html : Str) :
    ∀ (reps : List Replacement) (start : Nat), GoodFrom proxy_base html start reps →
      List.Pairwise (fun a b : Replacement => a.pos < b.pos ∧ a.pos + a.len ≤ b.pos) reps := by
  intro reps
  induction reps with
  | nil => intro _ _; exact List.Pairwise.nil
  | cons x xs ih =>
    intro start h
    obtain ⟨_, _, h3, _, h5⟩ := h
    have h8 := matchHere_len _ _ h3
    refine List.Pairwise.cons ?_ (ih _ h5)
    intro b hb
    obtain ⟨g1, _, _⟩ := goodFrom_mem proxy_base html xs _ h5 b hb
    exact ⟨by omega, g1⟩

theorem goodFrom_suffix (proxy_base html : Str) (r : Replacement) (back : List Replacement) :
    ∀ (front : List Replacement) (start : Nat),
      GoodFrom proxy_base html start (front ++ r :: back) →
      r.pos + r.len ≤ html.length ∧ GoodFrom proxy_base html (r.pos + r.len) back := by
  intro front
  induction front with
  | nil =>
    intro start h
    obtain ⟨_, h2, _, _, h5⟩ := h
    exact ⟨h2, h5⟩
  | cons x xs ih =>
    intro start h
    obtain ⟨_, _, _, _, h5⟩ := h
    exact ih _ h5

theorem goodFrom_apply (proxy_base html : Str) :
    ∀ (reps : List Replacement) (start : Nat), GoodFrom proxy_base html start reps →
      start ≤ html.length →
      ∃ cur : Str, applyReplacements reps.reverse html = some cur ∧ start ≤ cur.length ∧
        cur.take start = html.take start := by
  intro reps
  induction reps with
  | nil =>
    intro start _ hs
    exact ⟨html, rfl, hs, rfl⟩
  | cons r rs ih =>
    intro start h hs
    obtain ⟨h1, h2, _, _, h5⟩ := h
    obtain ⟨cur, hc, hlen, htake⟩ := ih (r.pos + r.len) h5 h2
    have hpre : cur.take start = html.take start := by
      have := congrArg (List.take start) htake
      rw [List.take_take, List.take_take] at this
      have e : min start (r.pos + r.len) = start := by omega
      rw [e] at this
      exact this
    refine ⟨cur.take r.pos ++ r.text ++ cur.drop (r.pos + r.len), ?_, ?_, ?_⟩
    · rw [List.reverse_cons, applyReplacements_append, hc]
      simp only [applyReplacements, StdString.replace]
      rw [if_neg (by omega)]
    · simp only [List.length_append, List.length_take]
      omega
    · rw [List.append_assoc, List.take_append_of_le_length (by rw [List.length_take]; omega),
        List.take_take]
      have e : min start r.pos = start := by omega
      rw [e]
      exact hpre

/-- Within the capacity of the regex engine the replacement list is well formed:
when no substring of `html` that matches the pattern is longer than the engine can
follow, with any fuel above `html.length` the scan loop ends with a list of
replacements whose offsets are strictly increasing and which do not overlap, each
of length at least 8 and inside the original buffer; and when the replacements
are applied in descending offset order, each `replace` finds the buffer still
equal to `html` up to the end of its match, so it is in bounds and replaces the
bytes of the original match. -/
theorem replacements_invariant_of_fits (capacity : Nat) (proxy_base html : Str) (fuel : Nat)
    (hfit : FitsEngine capacity html) (hfuel : html.length < fuel) :
    ∃ reps : List Replacement,
      collectLoop capacity proxy_base html fuel 0 [] = some reps ∧
      List.Pairwise (fun a b : Replacement => a.pos < b.pos ∧ a.pos + a.len ≤ b.pos) reps ∧
      (∀ r ∈ reps, 8 ≤ r.len ∧ r.pos + r.len ≤ html.length) ∧
      (∀ (front : List Replacement) (r : Replacement) (back : List Replacement),
        reps = front ++ r :: back →
        ∃ cur : Str, applyReplacements back.reverse html = some cur ∧
          r.pos + r.len ≤ cur.length ∧
          cur.take (r.pos + r.len) = html.take (r.pos + r.len)) := by
  obtain ⟨reps, hc, hg⟩ :=
    collectLoop_good capacity proxy_base html hfit fuel 0 [] (Nat.zero_le _) (by omega)
  rw [List.nil_append] at hc
  refine ⟨reps, hc, goodFrom_pairwise proxy_base html reps 0 hg, ?_, ?_⟩
  · intro r hr
    exact (goodFrom_mem proxy_base html reps 0 hg r hr).2
  · intro front r back e
    subst e
    obtain ⟨h2, h5⟩ := goodFrom_suffix proxy_base html r back front 0 hg
    exact goodFrom_apply proxy_base html back _ h5 h2

/-- The page `<a href="http://a/b">x</a> https://c.d` has two matches, at offsets 9
and 27; the loop collects them with 60 units of fuel and the invariant holds. -/
theorem replacements_invariant_of_fits_witness :
    ∃ reps : List Replacement,
      collectLoop 4096 (str "http://localhost:8080")
        (str "<a href=\"http://a/b\">x</a> https://c.d") 60 0 [] = some reps ∧
      List.Pairwise (fun a b : Replacement => a.pos < b.pos ∧ a.pos + a.len ≤ b.pos) reps ∧
      (∀ r ∈ reps, 8 ≤ r.len ∧
        r.pos + r.len ≤ (str "<a href=\"http://a/b\">x</a> https://c.d").length) ∧
      (∀ (front : List Replacement) (r : Replacement) (back : List Replacement),
        reps = front ++ r :: back →
        ∃ cur : Str,
          applyReplacements back.reverse (str "<a href=\"http://a/b\">x</a> https://c.d") =
            some cur ∧
          r.pos + r.len ≤ cur.length ∧
          cur.take (r.pos + r.len) =
            (str "<a href=\"http://a/b\">x</a> https://c.d").take (r.pos + r.len)) :=
  replacements_invariant_of_fits 4096 (str "http://localhost:8080")
    (str "<a href=\"http://a/b\">x</a> https://c.d") 60
    (fitsEngine_of_length_le 4096 _ (by decide)) (by decide)

/-! ### A match beyond the capacity of the regex engine -/

theorem takeWhile_replicate (n : Nat) (c : Byte) (hc : urlChar c = true) :
    (List.replicate n c).takeWhile urlChar = List.replicate n c := by
  induction n with
  | zero => rfl
  | succ n ih => rw [List.replicate_succ, List.takeWhile_cons, hc, if_pos rfl, ih]

theorem matchHere_long_run (n : Nat) (hn : 1 ≤ n) :
    matchHere (str "http://" ++ List.replicate n (ch 'a')) = some (7 + n) := by
  have h1 : matchScheme (str "https://") (str "http://" ++ List.replicate n (ch 'a')) = none := by
    have hp : (str "https://").isPrefixOf (str "http://" ++ List.replicate n (ch 'a')) = false :=
      rfl
    simp only [matchScheme, hp]
    rfl
  have h2 : matchScheme (str "http://") (str "http://" ++ List.replicate n (ch 'a')) =
      some (7 + n) := by
    have hp : (str "http://").isPrefixOf (str "http://" ++ List.replicate n (ch 'a')) = true := by
      rw [List.isPrefixOf_iff_prefix]
      exact List.prefix_append _ _
    have hd : (str "http://" ++ List.replicate n (ch 'a')).drop 7 =
        List.replicate n (ch 'a') := List.drop_left' rfl
    have hl : (str "http://").length = 7 := rfl
    simp only [matchScheme, hp, hl, hd, takeWhile_replicate n (ch 'a') (by decide),
      List.length_replicate, if_true]
    rw [if_pos hn]
  simp only [matchHere, h1, h2]

theorem leftmostMatch_long_run (n : Nat) (hn : 1 ≤ n) :
    leftmostMatch (str "http://" ++ List.replicate n (ch 'a')) = some (0, 7 + n) := by
  have e : str "http://" ++ List.replicate n (ch 'a') =
      ch 'h' :: (str "ttp://" ++ List.replicate n (ch 'a')) := rfl
  have hm := matchHere_long_run n hn
  rw [e] at hm ⊢
  rw [leftmostMatch, hm]

theorem collectLoop_beyond_capacity (capacity n : Nat) (proxy_base : Str) (hn : 1 ≤ n)
    (hcap : capacity < 7 + n) (fuel : Nat) :
    collectLoop capacity proxy_base (str "http://" ++ List.replicate n (ch 'a')) fuel 0 [] =
      none := by
  cases fuel with
  | zero => rfl
  | succ fuel =>
    rw [collectLoop, List.drop_zero,
      regexSearch_of_lt capacity _ 0 (7 + n) (leftmostMatch_long_run n hn) hcap]

theorem rewrite_beyond_capacity (capacity n : Nat) (proxy_base base_url : Str) (hn : 1 ≤ n)
    (hcap : capacity < 7 + n) :
    rewrite capacity proxy_base (str "http://" ++ List.replicate n (ch 'a')) base_url = none := by
  rw [rewrite, collectLoop_beyond_capacity capacity n proxy_base hn hcap]

end URLRewriter

/-! ## Theorems: a long URL on the proxy route -/

namespace HTTPServer

open StdString

theorem proxy_long_url_no_response (port : Nat) (env : Env) (clients : RateLimiter.Clients)
    (request : Str)
    (hpre : (str "/proxy/").isPrefixOf (parseRequestLine request).2 = true)
    (hallowed : (RateLimiter.allowRequest clients env.now (str "client_ip")).1 = true)
    (hscheme : (str "http://").isPrefixOf
        (Base64.decode (extractToken (parseRequestLine request).2)) = true ∨
      (str "https://").isPrefixOf
        (Base64.decode (extractToken (parseRequestLine request).2)) = true)
    (hsuccess : (env.fetch (Base64.decode (extractToken (parseRequestLine request).2))).success =
      true)
    (htype : (find (env.fetch (Base64.decode
        (extractToken (parseRequestLine request).2))).content_type (str "text/html") 0).isSome =
      true)
    (hcontent : (env.fetch (Base64.decode (extractToken (parseRequestLine request).2))).content =
      str "http://" ++ List.replicate 30000 (ch 'a'))
    (hcap : env.regex_capacity < 30007) :
    (handleClient port env clients request).sent = [] := by
  have hcheck : ¬ (¬ (str "http://").isPrefixOf
        (Base64.decode (extractToken (parseRequestLine request).2)) = true ∧
      ¬ (str "https://").isPrefixOf
        (Base64.decode (extractToken (parseRequestLine request).2)) = true) := by
    tauto
  rw [handleClient_proxy port env clients request hpre hallowed, proxyRoute_eq,
    if_neg hcheck, if_pos hsuccess, if_pos htype, hcontent,
    URLRewriter.rewrite_beyond_capacity env.regex_capacity 30000 _ _ (by decide) (by omega)]

end HTTPServer
